import Mathlib

/-!
Verification of the input-source resolution pipeline of this RDF library
(`rdflib/parser.py`) together with spec-modelled components (the CBD graph
walker and the Link-header parser, whose implementations are not part of the
sources at hand).

Python strings are modelled as lists of characters (`PyStr`), Python bytes
objects as lists of byte values (`PyBytes`), and exceptions as an `Except`
monad over the `PyErr` type.
-/

set_option maxRecDepth 4000

/-- Python strings are modelled as lists of characters. -/
abbrev PyStr := List Char

/-- Python bytes objects are modelled as lists of byte values (each < 256). -/
abbrev PyBytes := List Nat

/-- Convenience coercion from Lean string literals to the Python string model. -/
def str (s : String) : PyStr := s.data

/-- Exceptions raised by the modelled Python code. -/
inductive PyErr where
  /-- `ValueError(msg)` -/
  | valueError (msg : PyStr)
  /-- `TypeError` -/
  | typeError
  /-- `UnicodeError` (IDNA / codec failures) -/
  | unicodeError
  /-- `urllib.error.HTTPError` with its status code and `Location` header -/
  | httpError (code : Nat) (location : Option PyStr)
  /-- `IOError` and other I/O level failures -/
  | ioError
  /-- a bare `Exception(msg)` -/
  | exception (msg : PyStr)
deriving DecidableEq

deriving instance DecidableEq for Except

/-- Membership of a character in the ASCII range (`str.isascii` per character). -/
def isAsciiChar (c : Char) : Bool := c.toNat < 128

/-- Decision whether a character is an ASCII letter (A-Z or a-z). -/
def asciiAlpha (c : Char) : Bool :=
  (65 ≤ c.toNat && c.toNat ≤ 90) || (97 ≤ c.toNat && c.toNat ≤ 122)

/-- Decision whether a character is an ASCII digit. -/
def asciiDigit (c : Char) : Bool := 48 ≤ c.toNat && c.toNat ≤ 57

/-- The characters allowed in a URL scheme by `urllib.parse`
(`scheme_chars = ascii letters + digits + "+-."`; `+` is 43, `-` is 45,
`.` is 46). -/
def schemeChar (c : Char) : Bool :=
  asciiAlpha c || asciiDigit c || c.toNat == 43 || c.toNat == 45 || c.toNat == 46

/-- UTF-8 encoding of a single character (one Unicode scalar value). -/
def utf8Char (c : Char) : PyBytes :=
  let n := c.toNat
  if n < 0x80 then [n]
  else if n < 0x800 then [0xC0 + n / 64, 0x80 + n % 64]
  else if n < 0x10000 then [0xE0 + n / 4096, 0x80 + (n / 64) % 64, 0x80 + n % 64]
  else [0xF0 + n / 262144, 0x80 + (n / 4096) % 64, 0x80 + (n / 64) % 64, 0x80 + n % 64]

/-- Python `s.encode("utf-8")`. -/
def utf8Encode (s : PyStr) : PyBytes := s.flatMap utf8Char

/-- The bytes `urllib.parse.quote` leaves unescaped with its default arguments:
the always-safe set (ASCII alphanumerics and `_.-~`) plus the default safe
character `/`. -/
def quoteSafeByte (b : Nat) : Bool :=
  (0x41 ≤ b && b ≤ 0x5A) || (0x61 ≤ b && b ≤ 0x7A) || (0x30 ≤ b && b ≤ 0x39) ||
  b == 0x5F || b == 0x2E || b == 0x2D || b == 0x7E || b == 0x2F

/-- Uppercase hexadecimal digit, as produced by the `%{:02X}` quoter format. -/
def hexUpper (n : Nat) : Char :=
  if n < 10 then Char.ofNat (0x30 + n) else Char.ofNat (0x41 + n - 10)

/-- Percent-escaping of a single byte by `urllib.parse.quote`. -/
def quoteByte (b : Nat) : PyStr :=
  if quoteSafeByte b then [Char.ofNat b] else ['%', hexUpper (b / 16), hexUpper (b % 16)]

/-- Python `urllib.parse.quote(s)` with the default safe characters: the string
is encoded as UTF-8 and every unsafe byte is percent-escaped. -/
def quote (s : PyStr) : PyStr := (utf8Encode s).flatMap quoteByte

/-- Decision whether a character is an ASCII hexadecimal digit
(`string.hexdigits` membership used by the unquoter table). -/
def isHexChar (c : Char) : Bool :=
  c.isDigit || ('A' ≤ c && c ≤ 'F') || ('a' ≤ c && c ≤ 'f')

/-- Numeric value of an ASCII hexadecimal digit. -/
def hexVal (c : Char) : Nat :=
  if c.isDigit then c.toNat - 48 else if c ≤ 'F' then c.toNat - 55 else c.toNat - 87

/-- Python `urllib.parse.unquote_to_bytes` on an ASCII chunk: `%XX` pairs with
two hexadecimal digits become the corresponding byte, every other character
stands for its own byte (the chunk is ASCII, so each character is one byte). -/
def unquoteToBytes : PyStr → PyBytes
  | [] => []
  | '%' :: a :: b :: rest =>
    if isHexChar a && isHexChar b then (16 * hexVal a + hexVal b) :: unquoteToBytes rest
    else '%'.toNat :: unquoteToBytes (a :: b :: rest)
  | c :: rest => c.toNat :: unquoteToBytes rest

/-- Test for a UTF-8 continuation byte. -/
def contByte (b : Nat) : Bool := 0x80 ≤ b && b ≤ 0xBF

/-- The U+FFFD replacement character used by the `errors="replace"` policy. -/
def uRepl : Char := Char.ofNat 0xFFFD

/-- UTF-8 decoding with the `errors="replace"` policy (fuel-driven; the fuel is
always instantiated with the length of the byte list, and every step consumes
at least one byte). -/
def utf8DecodeReplaceAux : Nat → PyBytes → PyStr
  | 0, _ => []
  | _, [] => []
  | fuel + 1, b :: rest =>
    if b < 0x80 then Char.ofNat b :: utf8DecodeReplaceAux fuel rest
    else if b < 0xC2 then uRepl :: utf8DecodeReplaceAux fuel rest
    else if b < 0xE0 then
      match rest with
      | b2 :: rest2 =>
        if contByte b2 then
          Char.ofNat ((b - 0xC0) * 64 + (b2 - 0x80)) :: utf8DecodeReplaceAux fuel rest2
        else uRepl :: utf8DecodeReplaceAux fuel rest
      | [] => [uRepl]
    else if b < 0xF0 then
      match rest with
      | b2 :: b3 :: rest3 =>
        if contByte b2 && (b ≠ 0xE0 || 0xA0 ≤ b2) && (b ≠ 0xED || b2 < 0xA0) then
          if contByte b3 then
            Char.ofNat (((b - 0xE0) * 64 + (b2 - 0x80)) * 64 + (b3 - 0x80)) ::
              utf8DecodeReplaceAux fuel rest3
          else uRepl :: utf8DecodeReplaceAux fuel (b3 :: rest3)
        else uRepl :: utf8DecodeReplaceAux fuel (b2 :: b3 :: rest3)
      | [b2] =>
        if contByte b2 && (b ≠ 0xE0 || 0xA0 ≤ b2) && (b ≠ 0xED || b2 < 0xA0) then [uRepl]
        else uRepl :: utf8DecodeReplaceAux fuel [b2]
      | [] => [uRepl]
    else if b < 0xF5 then
      match rest with
      | b2 :: b3 :: b4 :: rest4 =>
        if contByte b2 && (b ≠ 0xF0 || 0x90 ≤ b2) && (b ≠ 0xF4 || b2 < 0x90) then
          if contByte b3 then
            if contByte b4 then
              Char.ofNat ((((b - 0xF0) * 64 + (b2 - 0x80)) * 64 + (b3 - 0x80)) * 64 +
                (b4 - 0x80)) :: utf8DecodeReplaceAux fuel rest4
            else uRepl :: utf8DecodeReplaceAux fuel (b4 :: rest4)
          else uRepl :: utf8DecodeReplaceAux fuel (b3 :: b4 :: rest4)
        else uRepl :: utf8DecodeReplaceAux fuel (b2 :: b3 :: b4 :: rest4)
      | other =>
        match other with
        | b2 :: more =>
          if contByte b2 && (b ≠ 0xF0 || 0x90 ≤ b2) && (b ≠ 0xF4 || b2 < 0x90) then
            match more with
            | b3 :: more2 =>
              if contByte b3 then [uRepl]
              else uRepl :: utf8DecodeReplaceAux fuel (b3 :: more2)
            | [] => [uRepl]
          else uRepl :: utf8DecodeReplaceAux fuel (b2 :: more)
        | [] => [uRepl]
    else uRepl :: utf8DecodeReplaceAux fuel rest

/-- UTF-8 decoding with replacement of invalid sequences (`errors="replace"`). -/
def utf8DecodeReplace (bs : PyBytes) : PyStr := utf8DecodeReplaceAux bs.length bs

/-- Worker for `unquote`: the string is processed as alternating maximal runs of
ASCII and non-ASCII characters (the `_asciire` split); each ASCII run is fed
through `unquote_to_bytes` and decoded as UTF-8 with replacement, non-ASCII
runs pass through unchanged. -/
def unquoteAux : Nat → PyStr → PyStr
  | 0, _ => []
  | _, [] => []
  | fuel + 1, l =>
    let asc := l.takeWhile isAsciiChar
    if asc.isEmpty then
      l.takeWhile (fun c => !isAsciiChar c) ++
        unquoteAux fuel (l.dropWhile (fun c => !isAsciiChar c))
    else
      utf8DecodeReplace (unquoteToBytes asc) ++ unquoteAux fuel (l.dropWhile isAsciiChar)

/-- Python `urllib.parse.unquote(s)` with the default utf-8/replace arguments.
A string containing no `%` is returned unchanged (the fast path taken by the
real implementation). -/
def unquote (s : PyStr) : PyStr :=
  if '%' ∈ s then unquoteAux s.length s else s

/-- The ASCII fast path of the `idna` codec: labels are split on `.`; every
label except the last must have between 1 and 63 characters, and the last
label (possibly empty, for a trailing dot) must have fewer than 64. -/
def idnaLabelsOk (s : PyStr) : Bool :=
  let labels := s.splitOn '.'
  labels.dropLast.all (fun lb => 0 < lb.length && lb.length < 64) &&
    (labels.getLast?.getD []).length < 64

/-- The `idna` codec encoder restricted to ASCII input: the empty string is
returned unchanged, otherwise the label lengths are validated and the input is
returned unchanged (an ASCII host needs no Punycode transformation);
a violated length bound raises `UnicodeError`. -/
def idnaAsciiEncode (s : PyStr) : Except PyErr PyStr :=
  if s = [] then .ok []
  else if idnaLabelsOk s then .ok s
  else .error .unicodeError

/-- Behaviour of the Python unicode machinery on non-ASCII input, which the
code under verification only ever reaches for internationalized host names.
It is kept abstract: every theorem below holds for an arbitrary oracle. -/
structure UnicodeOracle where
  /-- `netloc.encode("idna").decode("utf-8")` for non-ASCII `netloc` -/
  idnaNonAscii : PyStr → Except PyErr PyStr
  /-- `urllib.parse._checknetloc` beyond its ASCII fast path -/
  checknetlocNonAscii : PyStr → Except PyErr Unit

/-- `netloc.encode("idna").decode("utf-8")`: faithful on ASCII input, the
abstract oracle elsewhere. -/
def idnaEncode (O : UnicodeOracle) (s : PyStr) : Except PyErr PyStr :=
  if s.all isAsciiChar then idnaAsciiEncode s else O.idnaNonAscii s

/-- `urllib.parse._checknetloc`: a netloc that is empty or pure ASCII is always
accepted; the non-ASCII NFKC checks are the abstract oracle's. -/
def checknetloc (O : UnicodeOracle) (netloc : PyStr) : Except PyErr Unit :=
  if netloc = [] || netloc.all isAsciiChar then .ok () else O.checknetlocNonAscii netloc

/-- Splitting a list at the first occurrence of a character: `some (a, b)` with
`l = a ++ c :: b` and `c ∉ a` when `c` occurs, `none` otherwise. This models
both `str.find` + slicing and `str.split(c, 1)`. -/
def splitFirst (c : Char) : PyStr → Option (PyStr × PyStr)
  | [] => none
  | x :: xs =>
    if x = c then some ([], xs)
    else match splitFirst c xs with
      | some (a, b) => some (x :: a, b)
      | none => none

/-- Removal of the `_UNSAFE_URL_BYTES_TO_REMOVE` characters (tab is 9, CR is
13, LF is 10) done by `urlsplit` before any parsing. -/
def removeTabCrLf (s : PyStr) : PyStr :=
  s.filter fun c => !(c.toNat == 9 || c.toNat == 13 || c.toNat == 10)

/-- The five components produced by `urllib.parse.urlsplit`. -/
structure SplitUrl where
  scheme : PyStr
  netloc : PyStr
  path : PyStr
  query : PyStr
  fragment : PyStr
deriving DecidableEq

/-- Characters that do not terminate the netloc in `_splitnetloc`
(`/` is 47, `?` is 63, `#` is 35). -/
def netlocCont (c : Char) : Bool := !(c.toNat == 47 || c.toNat == 63 || c.toNat == 35)

/-- The scheme-extraction step of `urlsplit`: the text before the first colon
is the scheme when it is nonempty, starts with an ASCII letter and consists of
scheme characters; it is lower-cased. Otherwise the URL is left whole. -/
def splitScheme (url : PyStr) : PyStr × PyStr :=
  match splitFirst ':' url with
  | some (before, after) =>
    if 0 < before.length &&
        (match before.head? with
         | some h => isAsciiChar h && asciiAlpha h
         | none => false) &&
        before.all schemeChar
    then (before.map Char.toLower, after)
    else ([], url)
  | none => ([], url)

/-- The netloc-extraction step of `urlsplit`: after a leading `//` the netloc
extends to the first `/`, `?` or `#` (`_splitnetloc`). -/
def splitNetloc (url : PyStr) : PyStr × PyStr :=
  if url.take 2 = ['/', '/'] then
    ((url.drop 2).takeWhile netlocCont, (url.drop 2).dropWhile netlocCont)
  else ([], url)

/-- Split at the first `#` into body and fragment (`url.split("#", 1)`). -/
def splitFrag (url : PyStr) : PyStr × PyStr :=
  match splitFirst '#' url with
  | some (a, b) => (a, b)
  | none => (url, [])

/-- Split at the first `?` into body and query (`url.split("?", 1)`). -/
def splitQuery (url : PyStr) : PyStr × PyStr :=
  match splitFirst '?' url with
  | some (a, b) => (a, b)
  | none => (url, [])

/-- Python `urllib.parse.urlsplit`: tab/CR/LF removal, scheme extraction
(lower-cased, requiring a leading ASCII letter and scheme characters up to the
first colon), netloc extraction after `//` with the IPv6 bracket check,
fragment split at the first `#`, query split at the first `?`, and the netloc
check. -/
def urlsplit (O : UnicodeOracle) (url0 : PyStr) : Except PyErr SplitUrl :=
  let s1 := splitScheme (removeTabCrLf url0)
  let s2 := splitNetloc s1.2
  let netloc := s2.1
  if ('[' ∈ netloc ∧ ']' ∉ netloc) ∨ (']' ∈ netloc ∧ '[' ∉ netloc) then
    .error (.valueError (str "Invalid IPv6 URL"))
  else
    let s3 := splitFrag s2.2
    let s4 := splitQuery s3.1
    (checknetloc O netloc).map fun _ => ⟨s1.1, netloc, s4.1, s4.2, s3.2⟩

/-- Python `urllib.parse.urlunsplit`. -/
def urlunsplit (r : SplitUrl) : PyStr :=
  let url := r.path
  let url :=
    if r.netloc ≠ [] ∨ (url ≠ [] ∧ url.take 2 = ['/', '/']) then
      '/' :: '/' :: r.netloc ++ (if url ≠ [] ∧ url.head? ≠ some '/' then '/' :: url else url)
    else url
  let url := if r.scheme ≠ [] then r.scheme ++ ':' :: url else url
  let url := if r.query ≠ [] then url ++ '?' :: r.query else url
  if r.fragment ≠ [] then url ++ '#' :: r.fragment else url

/-- Python `s.endswith("#")` for the single-character suffix used by the code. -/
def endsWithHash (s : PyStr) : Bool := s.getLast? == some '#'

/-- The function `_iri2uri` of `rdflib/parser.py`: the IRI is split, the scheme
quoted, the netloc IDNA-encoded, the path quoted, the query quoted and
immediately unquoted (the deliberate no-op of the source), the fragment
quoted, the parts reassembled, and a trailing empty fragment marker `#`
elided by the reassembly is restored. -/
def iri2uri (O : UnicodeOracle) (iri : PyStr) : Except PyErr PyStr :=
  (urlsplit O iri).bind fun r =>
    (idnaEncode O r.netloc).map fun netloc =>
      let scheme := quote r.scheme
      let path := quote r.path
      let query := unquote (quote r.query)
      let fragment := quote r.fragment
      let uri := urlunsplit ⟨scheme, netloc, path, query, fragment⟩
      if endsWithHash iri ∧ ¬ endsWithHash uri then uri ++ ['#'] else uri

/-- A unicode oracle for concrete evaluations; its non-ASCII branches are never
reached on ASCII input. -/
def asciiOracle : UnicodeOracle where
  idnaNonAscii := fun _ => .error .unicodeError
  checknetlocNonAscii := fun _ => .ok ()

/-! Concrete evaluations validating the urllib model against the reference
behaviour of the Python standard library. -/

example : str "ab" = ['a', 'b'] := by decide
example : quote (str "/a:b") = str "/a%3Ab" := by decide
example : iri2uri asciiOracle (str "http://example.org/a:b") =
    .ok (str "http://example.org/a%3Ab") := by decide
example : iri2uri asciiOracle (str "https://example.org/a#") =
    .ok (str "https://example.org/a#") := by decide
example : idnaAsciiEncode (str "a..b") = .error .unicodeError := by decide
example : iri2uri asciiOracle (str "http://a..b/x") = .error .unicodeError := by decide
example : iri2uri asciiOracle (str "http://example.org/p?x=1&y=2#frag") =
    .ok (str "http://example.org/p?x=1&y=2#frag") := by decide
example : iri2uri asciiOracle (str "HTTP://Example.org/p") =
    .ok (str "http://Example.org/p") := by decide

/-- C3: for every IRI string that ends with the character `#`, every successful
result of the IRI normalizer `_iri2uri` also ends with `#`: the empty fragment
elided by split/rejoin is restored by the explicit fix-up at the end of the
function, whatever the unicode oracle does. -/
theorem iri2uri_preserves_trailing_hash (O : UnicodeOracle) (iri uri : PyStr)
    (hiri : endsWithHash iri = true) (h : iri2uri O iri = .ok uri) :
    endsWithHash uri = true := by
  unfold iri2uri at h
  cases hsp : urlsplit O iri with
  | error e => rw [hsp] at h; simp [Except.bind] at h
  | ok r =>
    rw [hsp] at h
    simp only [Except.bind] at h
    cases hid : idnaEncode O r.netloc with
    | error e => rw [hid] at h; simp [Except.map] at h
    | ok netloc =>
      rw [hid] at h
      simp only [Except.map, Except.ok.injEq] at h
      split at h
      · rw [← h]
        simp [endsWithHash, List.getLast?_concat]
      · next hcond =>
        rw [← h]
        rcases Decidable.not_and_iff_or_not.mp hcond with h1 | h2
        · exact absurd hiri h1
        · exact Decidable.not_not.mp h2

/-- Witness for `iri2uri_preserves_trailing_hash` at the spec's own example. -/
theorem iri2uri_preserves_trailing_hash_witness :
    iri2uri asciiOracle (str "https://example.org/a#") =
      .ok (str "https://example.org/a#") ∧
    endsWithHash (str "https://example.org/a#") = true :=
  ⟨by decide,
   iri2uri_preserves_trailing_hash asciiOracle (str "https://example.org/a#")
     (str "https://example.org/a#") (by decide) (by decide)⟩

/-- C2 counterexample: an all-ASCII IRI on which `_iri2uri` is not the
identity — the colon in the path segment is percent-encoded by `quote`. -/
theorem iri2uri_not_identity_on_ascii :
    (str "http://example.org/a:b").all isAsciiChar = true ∧
    iri2uri asciiOracle (str "http://example.org/a:b") =
      .ok (str "http://example.org/a%3Ab") ∧
    str "http://example.org/a%3Ab" ≠ str "http://example.org/a:b" := by
  refine ⟨by decide, by decide, by decide⟩

/-- Characters that `quote` maps to themselves. -/
def quoteSafeChar (c : Char) : Bool := quoteSafeByte c.toNat

/-- A lower-case ASCII letter. -/
def lowerAlpha (c : Char) : Bool := 97 ≤ c.toNat && c.toNat ≤ 122

/-- Scheme characters that the normalizer maps to themselves: lower-case ASCII
letters, digits, `-` (45) and `.` (46). -/
def plainSchemeChar (c : Char) : Bool :=
  lowerAlpha c || asciiDigit c || c.toNat == 45 || c.toNat == 46

/-- Host characters that the normalizer maps to themselves: ASCII, none of the
delimiters `/ ? # [ ]` and none of the stripped control characters. -/
def plainNetlocChar (c : Char) : Bool :=
  isAsciiChar c && !(c.toNat == 47 || c.toNat == 63 || c.toNat == 35 ||
    c.toNat == 91 || c.toNat == 93 || c.toNat == 9 || c.toNat == 13 || c.toNat == 10)

/-- An optional URL component with its leading delimiter. -/
def optPart (c : Char) : Option PyStr → PyStr
  | none => []
  | some q => c :: q

/-- Assembly of an IRI of the shape `scheme://netloc path [?query] [#fragment]`
from its components. -/
def assembleIri (scheme netloc path : PyStr) (query fragment : Option PyStr) : PyStr :=
  scheme ++ ':' :: '/' :: '/' :: netloc ++ path ++ optPart '?' query ++ optPart '#' fragment

lemma char_ne_of_toNat_ne {c d : Char} (h : c.toNat ≠ d.toNat) : c ≠ d :=
  fun he => h (congrArg Char.toNat he)

lemma not_mem_of_pred_false {p : Char → Bool} {s : PyStr} (h : ∀ c ∈ s, p c = true)
    {d : Char} (hd : p d = false) : d ∉ s := by
  intro hm
  rw [h d hm] at hd
  exact absurd hd (by simp)

lemma quoteSafeChar_bounds {c : Char} (h : quoteSafeChar c = true) :
    c.toNat < 128 ∧ c.toNat ≠ 35 ∧ c.toNat ≠ 63 ∧ c.toNat ≠ 37 ∧ c.toNat ≠ 58 ∧
    c.toNat ≠ 9 ∧ c.toNat ≠ 13 ∧ c.toNat ≠ 10 := by
  simp only [quoteSafeChar, quoteSafeByte, Bool.or_eq_true, Bool.and_eq_true,
    decide_eq_true_eq, beq_iff_eq] at h
  omega

lemma splitFirst_of_not_mem {c : Char} {l : PyStr} (h : c ∉ l) :
    splitFirst c l = none := by
  induction l with
  | nil => rfl
  | cons x xs ih =>
    simp only [List.mem_cons, not_or] at h
    simp only [splitFirst]
    rw [if_neg (fun hx => h.1 hx.symm), ih h.2]

lemma splitFirst_append {c : Char} {xs ys : PyStr} (h : c ∉ xs) :
    splitFirst c (xs ++ c :: ys) = some (xs, ys) := by
  induction xs with
  | nil => simp [splitFirst]
  | cons x t ih =>
    simp only [List.mem_cons, not_or] at h
    simp only [List.cons_append, splitFirst, List.append_eq]
    rw [if_neg (fun hx => h.1 hx.symm), ih h.2]

lemma utf8Char_ascii {c : Char} (h : c.toNat < 128) : utf8Char c = [c.toNat] := by
  simp only [utf8Char]
  rw [if_pos h]

lemma quote_of_safe {s : PyStr} (h : ∀ c ∈ s, quoteSafeChar c = true) :
    quote s = s := by
  induction s with
  | nil => rfl
  | cons c t ih =>
    have hc : quoteSafeChar c = true := h c (List.mem_cons_self c t)
    have hlt : c.toNat < 128 := (quoteSafeChar_bounds hc).1
    have ht : quote t = t := ih (fun d hd => h d (List.mem_cons_of_mem _ hd))
    have hstep : quote (c :: t) = quoteByte c.toNat ++ quote t := by
      simp [quote, utf8Encode, List.flatMap_cons, utf8Char_ascii hlt]
    rw [hstep, ht, quoteByte, if_pos (show quoteSafeByte c.toNat = true from hc),
      Char.ofNat_toNat, List.singleton_append]

lemma percent_not_mem_of_safe {s : PyStr} (h : ∀ c ∈ s, quoteSafeChar c = true) :
    '%' ∉ s :=
  not_mem_of_pred_false h (by decide)

lemma unquote_of_safe {s : PyStr} (h : ∀ c ∈ s, quoteSafeChar c = true) :
    unquote s = s := by
  rw [unquote, if_neg (percent_not_mem_of_safe h)]

lemma idnaEncode_ascii_ok {O : UnicodeOracle} {netloc : PyStr}
    (ha : netloc.all isAsciiChar = true) (hlab : idnaLabelsOk netloc = true) :
    idnaEncode O netloc = .ok netloc := by
  rw [idnaEncode, if_pos ha, idnaAsciiEncode]
  by_cases hn : netloc = []
  · rw [if_pos hn, hn]
  · rw [if_neg hn, if_pos hlab]

lemma toLower_eq_self {c : Char} (h : ¬(65 ≤ c.toNat ∧ c.toNat ≤ 90)) :
    c.toLower = c := by
  simp only [Char.toLower]
  rw [if_neg (fun hc => h ⟨hc.1, hc.2⟩)]

lemma map_toLower_eq_self {s : PyStr} (h : ∀ c ∈ s, plainSchemeChar c = true) :
    s.map Char.toLower = s := by
  have hfix : ∀ c ∈ s, Char.toLower c = c := by
    intro c hc
    have := h c hc
    simp only [plainSchemeChar, lowerAlpha, asciiDigit, Bool.or_eq_true,
      Bool.and_eq_true, decide_eq_true_eq, beq_iff_eq] at this
    exact toLower_eq_self (by omega)
  exact (List.map_congr_left hfix).trans (List.map_id _)

lemma takeWhile_nil_of_head {p : Char → Bool} {l : PyStr}
    (h : ∀ c, l.head? = some c → p c = false) : l.takeWhile p = [] := by
  cases l with
  | nil => rfl
  | cons x t => simp [List.takeWhile_cons, h x rfl]

lemma dropWhile_id_of_head {p : Char → Bool} {l : PyStr}
    (h : ∀ c, l.head? = some c → p c = false) : l.dropWhile p = l := by
  cases l with
  | nil => rfl
  | cons x t => simp [List.dropWhile_cons, h x rfl]

lemma endsWithHash_false_of_not_mem {s : PyStr} (h : '#' ∉ s) :
    endsWithHash s = false := by
  rw [endsWithHash]
  cases hl : s.getLast? with
  | none => rfl
  | some c =>
    have hc : c ∈ s := List.mem_of_getLast?_eq_some hl
    have : c ≠ '#' := fun he => h (he ▸ hc)
    simp [this]

lemma splitScheme_assembled {scheme : PyStr} (h0 : scheme ≠ [])
    (h1 : ∀ c, scheme.head? = some c → lowerAlpha c = true)
    (h2 : ∀ c ∈ scheme, plainSchemeChar c = true) :
    ∀ rest, splitScheme (scheme ++ ':' :: rest) = (scheme, rest) := by
  intro rest
  have hc : ':' ∉ scheme := not_mem_of_pred_false h2 (by decide)
  cases scheme with
  | nil => exact absurd rfl h0
  | cons a t =>
    have ha := h1 a rfl
    simp only [lowerAlpha, Bool.and_eq_true, decide_eq_true_eq] at ha
    have hA : (isAsciiChar a && asciiAlpha a) = true := by
      simp only [isAsciiChar, asciiAlpha, Bool.and_eq_true, Bool.or_eq_true,
        decide_eq_true_eq]
      omega
    have hAll : (a :: t).all schemeChar = true := by
      rw [List.all_eq_true]
      intro c hcmem
      have := h2 c hcmem
      simp only [plainSchemeChar, lowerAlpha, asciiDigit, Bool.or_eq_true,
        Bool.and_eq_true, decide_eq_true_eq, beq_iff_eq] at this
      simp only [schemeChar, asciiAlpha, asciiDigit, Bool.or_eq_true,
        Bool.and_eq_true, decide_eq_true_eq, beq_iff_eq]
      omega
    have hcond : (0 < (a :: t).length &&
        (match (a :: t).head? with
         | some h => isAsciiChar h && asciiAlpha h
         | none => false) &&
        (a :: t).all schemeChar) = true := by
      simp only [List.length_cons, List.head?_cons, hAll, hA, Bool.and_true]
      simp
    simp only [splitScheme, splitFirst_append hc]
    rw [if_pos hcond, map_toLower_eq_self h2]

lemma splitNetloc_assembled {netloc tail : PyStr}
    (hn : ∀ c ∈ netloc, netlocCont c = true)
    (ht : ∀ c, tail.head? = some c → netlocCont c = false) :
    splitNetloc ('/' :: '/' :: (netloc ++ tail)) = (netloc, tail) := by
  rw [splitNetloc, if_pos (by simp)]
  simp only [List.drop_succ_cons, List.drop_zero]
  rw [List.takeWhile_append_of_pos (by intro a hma; exact hn a hma),
    List.dropWhile_append_of_pos (by intro a hma; exact hn a hma),
    takeWhile_nil_of_head ht, dropWhile_id_of_head ht, List.append_nil]

lemma splitFrag_at {a : PyStr} (h : '#' ∉ a) :
    ∀ f, splitFrag (a ++ '#' :: f) = (a, f) := by
  intro f
  rw [splitFrag, splitFirst_append h]

lemma splitFrag_none {a : PyStr} (h : '#' ∉ a) : splitFrag a = (a, []) := by
  rw [splitFrag, splitFirst_of_not_mem h]

lemma splitQuery_at {a : PyStr} (h : '?' ∉ a) :
    ∀ q, splitQuery (a ++ '?' :: q) = (a, q) := by
  intro q
  rw [splitQuery, splitFirst_append h]

lemma splitQuery_none {a : PyStr} (h : '?' ∉ a) : splitQuery a = (a, []) := by
  rw [splitQuery, splitFirst_of_not_mem h]

lemma plainSchemeChar_nat {c : Char} (h : plainSchemeChar c = true) :
    (97 ≤ c.toNat ∧ c.toNat ≤ 122) ∨ (48 ≤ c.toNat ∧ c.toNat ≤ 57) ∨
      c.toNat = 45 ∨ c.toNat = 46 := by
  simp only [plainSchemeChar, lowerAlpha, asciiDigit, Bool.or_eq_true,
    Bool.and_eq_true, decide_eq_true_eq, beq_iff_eq] at h
  omega

lemma plainNetlocChar_nat {c : Char} (h : plainNetlocChar c = true) :
    c.toNat < 128 ∧ c.toNat ≠ 47 ∧ c.toNat ≠ 63 ∧ c.toNat ≠ 35 ∧ c.toNat ≠ 91 ∧
      c.toNat ≠ 93 ∧ c.toNat ≠ 9 ∧ c.toNat ≠ 13 ∧ c.toNat ≠ 10 := by
  simp only [plainNetlocChar, isAsciiChar, Bool.and_eq_true, Bool.not_eq_true',
    Bool.or_eq_false_iff, beq_eq_false_iff_ne, decide_eq_true_eq] at h
  omega

lemma netlocCont_of_plain {c : Char} (h : plainNetlocChar c = true) :
    netlocCont c = true := by
  have := plainNetlocChar_nat h
  simp only [netlocCont, Bool.not_eq_true', Bool.or_eq_false_iff, beq_eq_false_iff_ne]
  omega

lemma mem_optPart {a d : Char} {o : Option PyStr} (h : a ∈ optPart d o) :
    a = d ∨ ∃ q, o = some q ∧ a ∈ q := by
  rcases o with _ | q
  · simp [optPart] at h
  · rcases List.mem_cons.mp h with h | h
    · exact Or.inl h
    · exact Or.inr ⟨q, rfl, h⟩

/-- On a well-formed assembled IRI, `urlsplit` recovers exactly the components
it was assembled from. -/
lemma urlsplit_assembled (O : UnicodeOracle)
    (scheme netloc path : PyStr) (query fragment : Option PyStr)
    (hs0 : scheme ≠ [])
    (hs1 : ∀ c, scheme.head? = some c → lowerAlpha c = true)
    (hs : ∀ c ∈ scheme, plainSchemeChar c = true)
    (hn : ∀ c ∈ netloc, plainNetlocChar c = true)
    (hp0 : path = [] ∨ path.head? = some '/')
    (hp : ∀ c ∈ path, quoteSafeChar c = true)
    (hq : ∀ q, query = some q → ∀ c ∈ q, quoteSafeChar c = true)
    (hf : ∀ f, fragment = some f → ∀ c ∈ f, quoteSafeChar c = true) :
    urlsplit O (assembleIri scheme netloc path query fragment) =
      .ok ⟨scheme, netloc, path, query.getD [], fragment.getD []⟩ := by
  have hnetCont : ∀ c ∈ netloc, netlocCont c = true :=
    fun c hc => netlocCont_of_plain (hn c hc)
  have hascii : netloc.all isAsciiChar = true := by
    rw [List.all_eq_true]
    intro c hc
    have := (plainNetlocChar_nat (hn c hc)).1
    simp only [isAsciiChar, decide_eq_true_eq]
    omega
  have hpH : '#' ∉ path := not_mem_of_pred_false hp (by decide)
  have hpQ : '?' ∉ path := not_mem_of_pred_false hp (by decide)
  have hbrack : ¬(('[' ∈ netloc ∧ ']' ∉ netloc) ∨ (']' ∈ netloc ∧ '[' ∉ netloc)) := by
    have h1 : '[' ∉ netloc := not_mem_of_pred_false hn (by decide)
    have h2 : ']' ∉ netloc := not_mem_of_pred_false hn (by decide)
    rintro (⟨hm, _⟩ | ⟨hm, _⟩)
    · exact h1 hm
    · exact h2 hm
  have hchk : checknetloc O netloc = .ok () := by
    rw [checknetloc, if_pos]
    simp [hascii]
  have hclean : removeTabCrLf
      (scheme ++ ':' :: '/' :: '/' ::
        (netloc ++ (path ++ (optPart '?' query ++ optPart '#' fragment)))) =
      scheme ++ ':' :: '/' :: '/' ::
        (netloc ++ (path ++ (optPart '?' query ++ optPart '#' fragment))) := by
    rw [removeTabCrLf, List.filter_eq_self]
    intro a ha
    have hnum : a.toNat ≠ 9 → a.toNat ≠ 13 → a.toNat ≠ 10 →
        (!(a.toNat == 9 || a.toNat == 13 || a.toNat == 10)) = true := by
      intro h9 h13 h10
      simp [h9, h13, h10]
    rcases List.mem_append.mp ha with h | h
    · have := plainSchemeChar_nat (hs a h)
      exact hnum (by omega) (by omega) (by omega)
    rcases List.mem_cons.mp h with h | h
    · subst h; decide
    rcases List.mem_cons.mp h with h | h
    · subst h; decide
    rcases List.mem_cons.mp h with h | h
    · subst h; decide
    rcases List.mem_append.mp h with h | h
    · have := plainNetlocChar_nat (hn a h)
      exact hnum (by omega) (by omega) (by omega)
    rcases List.mem_append.mp h with h | h
    · have := quoteSafeChar_bounds (hp a h)
      exact hnum (by omega) (by omega) (by omega)
    rcases List.mem_append.mp h with h | h
    · rcases mem_optPart h with he | ⟨q, hqe, hmq⟩
      · subst he; decide
      · have := quoteSafeChar_bounds (hq q hqe a hmq)
        exact hnum (by omega) (by omega) (by omega)
    · rcases mem_optPart h with he | ⟨f, hfe, hmf⟩
      · subst he; decide
      · have := quoteSafeChar_bounds (hf f hfe a hmf)
        exact hnum (by omega) (by omega) (by omega)
  have htailhead : ∀ c,
      (path ++ (optPart '?' query ++ optPart '#' fragment)).head? = some c →
      netlocCont c = false := by
    intro c hc
    rw [List.head?_append, List.head?_append] at hc
    rcases hp0 with hpe | hph
    · subst hpe
      simp only [List.head?_nil, Option.none_or] at hc
      rcases query with _ | q
      · rcases fragment with _ | f
        · simp [optPart] at hc
        · simp only [optPart, List.head?_nil, List.head?_cons, Option.none_or,
            Option.some.injEq] at hc
          subst hc; decide
      · simp only [optPart, List.head?_cons, Option.or_some, Option.some.injEq] at hc
        subst hc; decide
    · rw [hph] at hc
      simp only [Option.or_some, Option.some.injEq] at hc
      subst hc; decide
  rcases query with _ | q <;> rcases fragment with _ | f
  · -- no query, no fragment
    simp only [optPart, List.append_nil, List.nil_append] at hclean htailhead
    simp only [assembleIri, optPart, List.append_assoc, List.cons_append,
      List.append_nil, List.nil_append]
    simp only [urlsplit, hclean, splitScheme_assembled hs0 hs1 hs,
      splitNetloc_assembled hnetCont htailhead]
    rw [if_neg hbrack]
    simp [splitFrag_none hpH, splitQuery_none hpQ, hchk, Except.map]
  · -- fragment only
    simp only [optPart, List.append_nil, List.nil_append] at hclean htailhead
    simp only [assembleIri, optPart, List.append_assoc, List.cons_append,
      List.append_nil, List.nil_append]
    simp only [urlsplit, hclean, splitScheme_assembled hs0 hs1 hs,
      splitNetloc_assembled hnetCont htailhead]
    rw [if_neg hbrack]
    simp [splitFrag_at hpH, splitQuery_none hpQ, hchk, Except.map]
  · -- query only
    simp only [optPart, List.append_nil, List.nil_append,
      List.cons_append] at hclean htailhead
    simp only [assembleIri, optPart, List.append_assoc, List.cons_append,
      List.append_nil, List.nil_append]
    simp only [urlsplit, hclean, splitScheme_assembled hs0 hs1 hs,
      splitNetloc_assembled hnetCont htailhead]
    rw [if_neg hbrack]
    have hbody : '#' ∉ path ++ '?' :: q := by
      intro hm
      rcases List.mem_append.mp hm with hm | hm
      · exact hpH hm
      · rcases List.mem_cons.mp hm with he | hm
        · exact absurd he (by decide)
        · exact not_mem_of_pred_false (hq q rfl) (by decide) hm
    simp [splitFrag_none hbody, splitQuery_at hpQ, hchk, Except.map]
  · -- query and fragment
    simp only [optPart, List.append_nil, List.nil_append, List.cons_append,
      List.append_assoc] at hclean htailhead
    simp only [assembleIri, optPart, List.append_assoc, List.cons_append,
      List.append_nil, List.nil_append]
    simp only [urlsplit, hclean, splitScheme_assembled hs0 hs1 hs,
      splitNetloc_assembled hnetCont htailhead]
    rw [if_neg hbrack]
    have hbody : '#' ∉ path ++ '?' :: q := by
      intro hm
      rcases List.mem_append.mp hm with hm | hm
      · exact hpH hm
      · rcases List.mem_cons.mp hm with he | hm
        · exact absurd he (by decide)
        · exact not_mem_of_pred_false (hq q rfl) (by decide) hm
    have hfr : splitFrag (path ++ '?' :: (q ++ '#' :: f)) = (path ++ '?' :: q, f) := by
      have hms : path ++ '?' :: (q ++ '#' :: f) = (path ++ '?' :: q) ++ '#' :: f := by
        simp
      rw [hms, splitFrag_at hbody]
    simp [hfr, splitQuery_at hpQ, hchk, Except.map]

lemma quoteSafe_of_plainScheme {c : Char} (h : plainSchemeChar c = true) :
    quoteSafeChar c = true := by
  have := plainSchemeChar_nat h
  simp only [quoteSafeChar, quoteSafeByte, Bool.or_eq_true, Bool.and_eq_true,
    decide_eq_true_eq, beq_iff_eq]
  omega

lemma hash_not_mem_assembled {scheme netloc path : PyStr} {query : Option PyStr}
    (hs : ∀ c ∈ scheme, plainSchemeChar c = true)
    (hn : ∀ c ∈ netloc, plainNetlocChar c = true)
    (hp : ∀ c ∈ path, quoteSafeChar c = true)
    (hq : ∀ q, query = some q → ∀ c ∈ q, quoteSafeChar c = true) :
    '#' ∉ assembleIri scheme netloc path query none := by
  intro hm
  have h35 : ('#' : Char).toNat = 35 := rfl
  simp only [assembleIri, optPart, List.append_nil] at hm
  rcases List.mem_append.mp hm with h | h
  · rcases List.mem_append.mp h with h | h
    · rcases List.mem_append.mp h with h | h
      · have := plainSchemeChar_nat (hs _ h)
        omega
      · rcases List.mem_cons.mp h with h | h
        · exact absurd h (by decide)
        rcases List.mem_cons.mp h with h | h
        · exact absurd h (by decide)
        rcases List.mem_cons.mp h with h | h
        · exact absurd h (by decide)
        · have := plainNetlocChar_nat (hn _ h)
          omega
    · have := quoteSafeChar_bounds (hp _ h)
      omega
  · rcases mem_optPart h with he | ⟨q, hqe, hmq⟩
    · exact absurd he (by decide)
    · have := quoteSafeChar_bounds (hq q hqe _ hmq)
      omega

/-- C2 (amended): the IRI normalizer `_iri2uri` is the identity on ASCII IRIs
of the shape `scheme://host path [?query] [#fragment]` whose scheme is
non-empty, starts with a lower-case letter and consists of lower-case letters,
digits, `-` and `.`; whose host is non-empty ASCII without URL delimiters and
with IDNA-acceptable label lengths; whose path is empty or begins with `/` and,
like the query (non-empty when present) and the fragment (possibly empty),
consists only of characters that percent-quoting leaves unchanged. -/
theorem iri2uri_identity_plain (O : UnicodeOracle)
    (scheme netloc path : PyStr) (query fragment : Option PyStr)
    (hs0 : scheme ≠ [])
    (hs1 : ∀ c, scheme.head? = some c → lowerAlpha c = true)
    (hs : ∀ c ∈ scheme, plainSchemeChar c = true)
    (hn0 : netloc ≠ [])
    (hn : ∀ c ∈ netloc, plainNetlocChar c = true)
    (hnl : idnaLabelsOk netloc = true)
    (hp0 : path = [] ∨ path.head? = some '/')
    (hp : ∀ c ∈ path, quoteSafeChar c = true)
    (hq : ∀ q, query = some q → q ≠ [] ∧ ∀ c ∈ q, quoteSafeChar c = true)
    (hf : ∀ f, fragment = some f → ∀ c ∈ f, quoteSafeChar c = true) :
    iri2uri O (assembleIri scheme netloc path query fragment) =
      .ok (assembleIri scheme netloc path query fragment) := by
  have hq2 : ∀ q, query = some q → ∀ c ∈ q, quoteSafeChar c = true :=
    fun q hqe => (hq q hqe).2
  have hascii : netloc.all isAsciiChar = true := by
    rw [List.all_eq_true]
    intro c hc
    have := (plainNetlocChar_nat (hn c hc)).1
    simp only [isAsciiChar, decide_eq_true_eq]
    omega
  have hqs : quote scheme = scheme :=
    quote_of_safe (fun c hc => quoteSafe_of_plainScheme (hs c hc))
  have hps : quote path = path := quote_of_safe hp
  have hinner : ¬(path ≠ [] ∧ path.head? ≠ some '/') := by
    rcases hp0 with he | hh
    · exact fun hc => hc.1 he
    · exact fun hc => hc.2 (by rw [hh])
  have hnilq : unquote ([] : PyStr) = [] := by decide
  have hnilf : quote ([] : PyStr) = [] := rfl
  rw [iri2uri,
    urlsplit_assembled O scheme netloc path query fragment hs0 hs1 hs hn hp0 hp hq2 hf]
  simp only [Except.bind, idnaEncode_ascii_ok hascii hnl, Except.map, Except.ok.injEq]
  rcases query with _ | q <;> rcases fragment with _ | f
  · -- no query, no fragment
    simp only [Option.getD_none, hqs, hps, hnilq, hnilf]
    have hvu : urlunsplit ⟨scheme, netloc, path, [], []⟩ =
        assembleIri scheme netloc path none none := by
      simp only [urlunsplit]
      rw [if_pos (Or.inl hn0), if_neg hinner, if_pos hs0,
        if_neg (by simp : ¬(([] : PyStr) ≠ [])), if_neg (by simp : ¬(([] : PyStr) ≠ []))]
      simp [assembleIri, optPart, List.append_assoc, List.cons_append]
    rw [hvu, if_neg (fun hh => hh.2 hh.1)]
  · -- fragment only
    simp only [Option.getD_none, Option.getD_some, hqs, hps, hnilf, hnilq]
    rcases f with _ | ⟨c0, f'⟩
    · -- empty fragment: the explicit restore step fires
      simp only [hnilf, hnilq]
      have hvu : urlunsplit ⟨scheme, netloc, path, [], []⟩ =
          assembleIri scheme netloc path none none := by
        simp only [urlunsplit]
        rw [if_pos (Or.inl hn0), if_neg hinner, if_pos hs0,
          if_neg (by simp : ¬(([] : PyStr) ≠ [])), if_neg (by simp : ¬(([] : PyStr) ≠ []))]
        simp [assembleIri, optPart, List.append_assoc, List.cons_append]
      have hiri : endsWithHash (assembleIri scheme netloc path none (some [])) = true := by
        simp only [assembleIri, optPart, endsWithHash]
        rw [List.getLast?_concat]
        rfl
      have hpre : endsWithHash (assembleIri scheme netloc path none none) = false :=
        endsWithHash_false_of_not_mem
          (hash_not_mem_assembled hs hn hp (fun q hqe => by cases hqe))
      rw [hvu, if_pos ⟨hiri, by simp [hpre]⟩]
      simp [assembleIri, optPart]
    · -- non-empty fragment
      have hfq := hf (c0 :: f') rfl
      simp only [quote_of_safe hfq, hnilf, hnilq]
      have hvu : urlunsplit ⟨scheme, netloc, path, [], c0 :: f'⟩ =
          assembleIri scheme netloc path none (some (c0 :: f')) := by
        simp only [urlunsplit]
        rw [if_pos (Or.inl hn0), if_neg hinner, if_pos hs0,
          if_neg (by simp : ¬(([] : PyStr) ≠ [])),
          if_pos (by simp : (c0 :: f' : PyStr) ≠ [])]
        simp [assembleIri, optPart, List.append_assoc, List.cons_append]
      rw [hvu, if_neg (fun hh => hh.2 hh.1)]
  · -- query only
    have hqq := (hq q rfl).2
    simp only [Option.getD_none, Option.getD_some, hqs, hps, hnilf,
      quote_of_safe hqq, unquote_of_safe hqq]
    have hvu : urlunsplit ⟨scheme, netloc, path, q, []⟩ =
        assembleIri scheme netloc path (some q) none := by
      simp only [urlunsplit]
      rw [if_pos (Or.inl hn0), if_neg hinner, if_pos hs0,
        if_pos (hq q rfl).1, if_neg (by simp : ¬(([] : PyStr) ≠ []))]
      simp [assembleIri, optPart, List.append_assoc, List.cons_append]
    rw [hvu, if_neg (fun hh => hh.2 hh.1)]
  · -- query and fragment
    have hqq := (hq q rfl).2
    simp only [Option.getD_some, hqs, hps, quote_of_safe hqq, unquote_of_safe hqq]
    rcases f with _ | ⟨c0, f'⟩
    · -- empty fragment: the explicit restore step fires
      simp only [hnilf, hnilq]
      have hvu : urlunsplit ⟨scheme, netloc, path, q, []⟩ =
          assembleIri scheme netloc path (some q) none := by
        simp only [urlunsplit]
        rw [if_pos (Or.inl hn0), if_neg hinner, if_pos hs0,
          if_pos (hq q rfl).1, if_neg (by simp : ¬(([] : PyStr) ≠ []))]
        simp [assembleIri, optPart, List.append_assoc, List.cons_append]
      have hiri : endsWithHash (assembleIri scheme netloc path (some q) (some [])) = true := by
        simp only [assembleIri, optPart, endsWithHash]
        rw [List.getLast?_concat]
        rfl
      have hpre : endsWithHash (assembleIri scheme netloc path (some q) none) = false :=
        endsWithHash_false_of_not_mem
          (hash_not_mem_assembled hs hn hp (fun q' hqe => by cases hqe; exact hqq))
      rw [hvu, if_pos ⟨hiri, by simp [hpre]⟩]
      simp [assembleIri, optPart]
    · -- non-empty fragment
      have hfq := hf (c0 :: f') rfl
      simp only [quote_of_safe hfq]
      have hvu : urlunsplit ⟨scheme, netloc, path, q, c0 :: f'⟩ =
          assembleIri scheme netloc path (some q) (some (c0 :: f')) := by
        simp only [urlunsplit]
        rw [if_pos (Or.inl hn0), if_neg hinner, if_pos hs0,
          if_pos (hq q rfl).1, if_pos (by simp : (c0 :: f' : PyStr) ≠ [])]
        simp [assembleIri, optPart, List.append_assoc, List.cons_append]
      rw [hvu, if_neg (fun hh => hh.2 hh.1)]

/-- Witness for `iri2uri_identity_plain` at a concrete plain ASCII IRI. -/
theorem iri2uri_identity_plain_witness :
    iri2uri asciiOracle
      (assembleIri (str "https") (str "example.org") (str "/a")
        (some (str "abc")) (some (str "frag"))) =
      .ok (assembleIri (str "https") (str "example.org") (str "/a")
        (some (str "abc")) (some (str "frag"))) :=
  iri2uri_identity_plain asciiOracle (str "https") (str "example.org") (str "/a")
    (some (str "abc")) (some (str "frag"))
    (by decide)
    (fun c hc => by
      rw [show (str "https").head? = some 'h' from rfl] at hc
      cases hc
      decide)
    (by decide)
    (by decide)
    (by decide)
    (by decide)
    (Or.inr (by decide))
    (by decide)
    (fun q hqe => by
      cases hqe
      exact ⟨by decide, by decide⟩)
    (fun f hfe => by
      cases hfe
      decide)

/-- A codec from Python's codecs registry, kept abstract: an encoder from text
to bytes and a decoder from bytes to text, each able to raise. -/
structure Codec where
  enc : PyStr → Except PyErr PyBytes
  dec : PyBytes → Except PyErr PyStr

/-- The call `codecs.getencoder(encoding)(text)`: it returns the pair
`(encoded bytes, number of characters consumed)`. -/
def encoderCall (E : Codec) (s : PyStr) : Except PyErr (PyBytes × Nat) :=
  (E.enc s).map fun b => (b, s.length)

/-- Strict UTF-8 decoding (`errors="strict"`), raising `UnicodeError` on any
invalid byte sequence (fuel-driven as for the replacing decoder). -/
def utf8DecodeStrictAux : Nat → PyBytes → Except PyErr PyStr
  | 0, _ => .ok []
  | _, [] => .ok []
  | fuel + 1, b :: rest =>
    if b < 0x80 then (utf8DecodeStrictAux fuel rest).map (Char.ofNat b :: ·)
    else if 0xC2 ≤ b ∧ b ≤ 0xDF then
      match rest with
      | b2 :: rest2 =>
        if contByte b2 then
          (utf8DecodeStrictAux fuel rest2).map (Char.ofNat ((b - 0xC0) * 64 + (b2 - 0x80)) :: ·)
        else .error .unicodeError
      | [] => .error .unicodeError
    else if 0xE0 ≤ b ∧ b ≤ 0xEF then
      match rest with
      | b2 :: b3 :: rest3 =>
        if contByte b2 && (b ≠ 0xE0 || 0xA0 ≤ b2) && (b ≠ 0xED || b2 < 0xA0) && contByte b3 then
          (utf8DecodeStrictAux fuel rest3).map
            (Char.ofNat (((b - 0xE0) * 64 + (b2 - 0x80)) * 64 + (b3 - 0x80)) :: ·)
        else .error .unicodeError
      | _ => .error .unicodeError
    else if 0xF0 ≤ b ∧ b ≤ 0xF4 then
      match rest with
      | b2 :: b3 :: b4 :: rest4 =>
        if contByte b2 && (b ≠ 0xF0 || 0x90 ≤ b2) && (b ≠ 0xF4 || b2 < 0x90) &&
            contByte b3 && contByte b4 then
          (utf8DecodeStrictAux fuel rest4).map
            (Char.ofNat ((((b - 0xF0) * 64 + (b2 - 0x80)) * 64 + (b3 - 0x80)) * 64 +
              (b4 - 0x80)) :: ·)
        else .error .unicodeError
      | _ => .error .unicodeError
    else .error .unicodeError

/-- Strict UTF-8 decoding of a whole byte string. -/
def utf8DecodeStrict (bs : PyBytes) : Except PyErr PyStr :=
  utf8DecodeStrictAux bs.length bs

/-- The `utf-8` codec (the default encoding of `StringInputSource`). -/
def utf8Codec : Codec where
  enc := fun s => .ok (utf8Encode s)
  dec := utf8DecodeStrict

/-- The state of an in-memory binary buffer (`io.BytesIO`). -/
structure BytesBuf where
  data : PyBytes
  pos : Nat
deriving DecidableEq

/-- `BytesIO.read()` with no size argument: the rest of the buffer, leaving the
position at the end. `read1()` behaves identically on a `BytesIO`. -/
def BytesBuf.readAll (b : BytesBuf) : PyBytes × BytesBuf :=
  (b.data.drop b.pos, { b with pos := b.data.length })

/-- A dynamically-typed Python value, as far as the byte-stream wrapper needs:
the `BytesIO` constructor accepts a bytes object and raises `TypeError` on
anything else, such as the `(bytes, length)` tuple returned by an encoder. -/
inductive PyVal where
  | bytes (b : PyBytes)
  | tuple2 (x y : PyVal)
  | int (n : Nat)
deriving DecidableEq

/-- The `BytesIO(initial_bytes)` constructor. -/
def bytesBufOfVal : PyVal → Except PyErr BytesBuf
  | .bytes b => .ok ⟨b, 0⟩
  | _ => .error .typeError

/-- The state of a `BytesIOWrapper`: the wrapped text, its encoding, and the
lazily computed encoded buffer (`None` until first use). -/
structure BytesIOWrapper where
  wrapped : PyStr
  encoding : Codec
  encoded : Option BytesBuf

/-- `BytesIOWrapper.read`: on first use the text is encoded — the encoder's
result is destructured into `b, blen` and `b` alone is passed to the `BytesIO`
constructor — and the request is served from the cached buffer. -/
def BytesIOWrapper.read (st : BytesIOWrapper) : Except PyErr (PyBytes × BytesIOWrapper) :=
  (Except.map (fun (buf : BytesBuf) =>
    let r := buf.readAll
    (r.1, { st with encoded := some r.2 })) <|
  match st.encoded with
  | some buf => .ok buf
  | none =>
    (encoderCall st.encoding st.wrapped).bind fun p => bytesBufOfVal (.bytes p.1))

/-- `BytesIOWrapper.read1`: unlike `read`, the `(bytes, length)` pair returned
by the encoder is not destructured — the whole pair is passed to the `BytesIO`
constructor. -/
def BytesIOWrapper.read1 (st : BytesIOWrapper) : Except PyErr (PyBytes × BytesIOWrapper) :=
  (Except.map (fun (buf : BytesBuf) =>
    let r := buf.readAll
    (r.1, { st with encoded := some r.2 })) <|
  match st.encoded with
  | some buf => .ok buf
  | none =>
    (encoderCall st.encoding st.wrapped).bind fun p =>
      bytesBufOfVal (.tuple2 (.bytes p.1) (.int p.2)))

/-- The state of a character buffer (`io.StringIO`). -/
structure StrBuf where
  data : PyStr
  pos : Nat

/-- A `StringInputSource` built from a `str` value: the character stream is a
`StringIO` over the text, the byte stream a `BytesIOWrapper`, and the declared
encoding is the constructor's `encoding` argument. -/
structure StringSourceFromStr where
  charStream : StrBuf
  byteStream : BytesIOWrapper
  encoding : Codec

/-- `StringInputSource.__init__` on a `str` value. -/
def StringInputSource.fromStr (value : PyStr) (encoding : Codec) : StringSourceFromStr :=
  { charStream := ⟨value, 0⟩
  , byteStream := { wrapped := value, encoding := encoding, encoded := none }
  , encoding := encoding }

/-- A `StringInputSource` built from a bytes value: the byte stream is a
`BytesIO` over the bytes, the character stream a `TextIOWrapper` sharing that
buffer, and the declared encoding is the wrapper's encoding. -/
structure StringSourceFromBytes where
  byteStream : BytesBuf
  encoding : Codec

/-- `StringInputSource.__init__` on a bytes value. -/
def StringInputSource.fromBytes (value : PyBytes) (encoding : Codec) : StringSourceFromBytes :=
  { byteStream := ⟨value, 0⟩, encoding := encoding }

/-- Helper for the universal-newline translation: the flag records whether the
previous character was a pending `\r` whose translation to `\n` has not been
emitted yet (a following `\n` must be merged with it). -/
def univNewlinesAux : Bool → PyStr → PyStr
  | pend, [] => if pend then ['\n'] else []
  | pend, c :: rest =>
    if c = '\r' then
      (if pend then ['\n'] else []) ++ univNewlinesAux true rest
    else if c = '\n' then
      '\n' :: univNewlinesAux false rest
    else
      (if pend then ['\n'] else []) ++ (c :: univNewlinesAux false rest)

/-- The universal-newline translation a `TextIOWrapper` performs on read with
the default `newline=None`: `\r\n` and a lone `\r` both become `\n`. -/
def univNewlines (t : PyStr) : PyStr :=
  univNewlinesAux false t

/-- Reading the whole character stream of a bytes-backed `StringInputSource`:
the `TextIOWrapper` consumes the remaining bytes of the shared buffer, decodes
them with its encoding (raising on undecodable input), and applies the
universal-newline translation of its default `newline=None` mode. -/
def StringSourceFromBytes.readAllChars (s : StringSourceFromBytes) :
    Except PyErr (PyStr × StringSourceFromBytes) :=
  let r := s.byteStream.readAll
  (s.encoding.dec r.1).map fun t => (univNewlines t, { s with byteStream := r.2 })

lemma univNewlinesAux_of_no_cr {t : PyStr} (h : '\r' ∉ t) :
    univNewlinesAux false t = t := by
  induction t with
  | nil => rfl
  | cons c rest ih =>
    simp only [List.mem_cons, not_or] at h
    have hc : ¬ c = '\r' := fun he => h.1 he.symm
    by_cases hn : c = '\n'
    · subst hn
      simp [univNewlinesAux, ih h.2]
    · simp [univNewlinesAux, hc, hn, ih h.2]

lemma univNewlines_of_no_cr {t : PyStr} (h : '\r' ∉ t) : univNewlines t = t :=
  univNewlinesAux_of_no_cr h

/-- C4 (amended): stream equivalence of `StringInputSource`. Built from text
`T` with a codec whose encoder sends `T` to `B` and whose decoder sends `B`
back to `T`, reading the full byte stream yields exactly `B`, so decoding it
with the same encoding reproduces `T`. Built from bytes `B2` that the codec
decodes to `T2` and encodes back to `B2`, the `TextIOWrapper` character stream
applies the universal-newline translation of its default `newline=None` mode
after decoding, so the bytes direction holds only when the decoded text
contains no carriage return: then reading the full character stream yields
exactly `T2` and re-encoding with the source's reported encoding reproduces
`B2`. (When `T2` contains `\r`, the translation rewrites it to `\n` and
re-encoding does not reproduce `B2`; see the counterexample.) -/
theorem stringinputsource_stream_roundtrip
    (E E2 : Codec) (T T2 : PyStr) (B B2 : PyBytes)
    (henc : E.enc T = .ok B) (hdec : E.dec B = .ok T)
    (hdec2 : E2.dec B2 = .ok T2) (henc2 : E2.enc T2 = .ok B2)
    (hcr : '\r' ∉ T2) :
    (∃ st, (StringInputSource.fromStr T E).byteStream.read = .ok (B, st)) ∧
    E.dec B = .ok T ∧
    (∃ st, (StringInputSource.fromBytes B2 E2).readAllChars = .ok (T2, st)) ∧
    (StringInputSource.fromBytes B2 E2).encoding.enc T2 = .ok B2 := by
  refine ⟨⟨{ wrapped := T, encoding := E, encoded := some ⟨B, B.length⟩ }, ?_⟩, hdec,
    ⟨{ byteStream := ⟨B2, B2.length⟩, encoding := E2 }, ?_⟩, henc2⟩
  · simp [StringInputSource.fromStr, BytesIOWrapper.read, encoderCall, henc,
      Except.bind, Except.map, bytesBufOfVal, BytesBuf.readAll]
  · simp [StringInputSource.fromBytes, StringSourceFromBytes.readAllChars,
      BytesBuf.readAll, hdec2, Except.map, univNewlines_of_no_cr hcr]

/-- Witness for `stringinputsource_stream_roundtrip` with the utf-8 codec. -/
theorem stringinputsource_stream_roundtrip_witness :
    (∃ st, (StringInputSource.fromStr (str "ab") utf8Codec).byteStream.read =
      .ok ([97, 98], st)) ∧
    utf8Codec.dec [97, 98] = .ok (str "ab") ∧
    (∃ st, (StringInputSource.fromBytes [99, 100] utf8Codec).readAllChars =
      .ok (str "cd", st)) ∧
    (StringInputSource.fromBytes [99, 100] utf8Codec).encoding.enc (str "cd") =
      .ok [99, 100] :=
  stringinputsource_stream_roundtrip utf8Codec utf8Codec (str "ab") (str "cd")
    [97, 98] [99, 100] (by decide) (by decide) (by decide) (by decide)
    (by decide)

/-- Counterexample to C4 as stated: a `StringInputSource` built from the bytes
`b"a\x0d\x0ab"` delivers the character stream `"a\x0ab"` (the `TextIOWrapper`
universal-newline translation turned `\r\n` into `\n`), and re-encoding that
text with the source's utf-8 encoding yields `b"a\x0ab"`, which differs from
the original bytes: the byte stream cannot be reproduced from the character
stream. -/
theorem stringinputsource_bytes_newline_counterexample :
    (StringInputSource.fromBytes [97, 13, 10, 98] utf8Codec).readAllChars =
      .ok (str "a\nb", ⟨⟨[97, 13, 10, 98], 4⟩, utf8Codec⟩) ∧
    (StringInputSource.fromBytes [97, 13, 10, 98] utf8Codec).encoding.enc
      (str "a\nb") = .ok [97, 10, 98] ∧
    ([97, 10, 98] : PyBytes) ≠ [97, 13, 10, 98] :=
  ⟨rfl, rfl, by decide⟩

/-- C10: on a `StringInputSource` built from text, calling `read1()` on the
byte stream before any `read()` raises `TypeError`, because the lazy-encode
branch of `read1` passes the encoder's `(bytes, length)` pair whole to the
`BytesIO` constructor; once a `read()` has populated the cache, `read1()`
succeeds (and returns the empty bytes left after the full read). -/
theorem bytesiowrapper_read1_typeerror (T : PyStr) (E : Codec) (B : PyBytes)
    (henc : E.enc T = .ok B) :
    (StringInputSource.fromStr T E).byteStream.read1 = .error .typeError ∧
    ((StringInputSource.fromStr T E).byteStream.read =
      .ok (B, { wrapped := T, encoding := E, encoded := some ⟨B, B.length⟩ }) ∧
     BytesIOWrapper.read1 { wrapped := T, encoding := E, encoded := some ⟨B, B.length⟩ } =
      .ok ([], { wrapped := T, encoding := E, encoded := some ⟨B, B.length⟩ })) := by
  refine ⟨?_, ?_, ?_⟩
  · simp [StringInputSource.fromStr, BytesIOWrapper.read1, encoderCall, henc,
      Except.bind, Except.map, bytesBufOfVal]
  · simp [StringInputSource.fromStr, BytesIOWrapper.read, encoderCall, henc,
      Except.bind, Except.map, bytesBufOfVal, BytesBuf.readAll]
  · simp [BytesIOWrapper.read1, BytesBuf.readAll, Except.map]

/-- Witness for `bytesiowrapper_read1_typeerror` on the text `"ab"` with the
utf-8 codec. -/
theorem bytesiowrapper_read1_typeerror_witness :
    (StringInputSource.fromStr (str "ab") utf8Codec).byteStream.read1 =
      .error .typeError ∧
    ((StringInputSource.fromStr (str "ab") utf8Codec).byteStream.read =
      .ok ([97, 98], ⟨str "ab", utf8Codec, some ⟨[97, 98], 2⟩⟩) ∧
     BytesIOWrapper.read1 ⟨str "ab", utf8Codec, some ⟨[97, 98], 2⟩⟩ =
      .ok ([], ⟨str "ab", utf8Codec, some ⟨[97, 98], 2⟩⟩)) :=
  bytesiowrapper_read1_typeerror (str "ab") utf8Codec [97, 98] (by decide)

/-- An abstract stream handle as seen by the generic `InputSource`: whether its
`close()` raises, whether it is closed, and how many times `close()` has been
called on it. Every concrete stream object exposes a `close` attribute, so the
`hasattr` guard of the source is always satisfied. -/
structure Handle where
  closeRaises : Bool
  closed : Bool
  closeCalls : Nat
deriving DecidableEq

/-- One call of the underlying stream's `close()`: the call is always recorded,
and an exception is reported exactly when the handle's close raises. -/
def Handle.doClose (h : Handle) : Handle × Option PyErr :=
  ({ h with closeCalls := h.closeCalls + 1, closed := h.closed || !h.closeRaises },
   if h.closeRaises then some .ioError else none)

/-- The stream fields of an `InputSource` (character stream and byte stream,
each possibly absent), covering the generic, string, URL and file variants. -/
structure GenericInputSource where
  charStream : Option Handle
  byteStream : Option Handle
deriving DecidableEq

/-- `InputSource.close`: each present stream's `close` is attempted inside
`try ... except Exception: pass`, so the exception component of `doClose` is
discarded and nothing propagates. -/
def InputSource.close (s : GenericInputSource) : Except PyErr GenericInputSource :=
  .ok { charStream := s.charStream.map fun h => (h.doClose).1
      , byteStream := s.byteStream.map fun h => (h.doClose).1 }

/-- A `PythonInputSource` holds only a structured-data reference. -/
structure PythonSourceState where
  data : Option PyVal
deriving DecidableEq

/-- `PythonInputSource.close` drops the data reference. -/
def PythonInputSource.close (_p : PythonSourceState) : Except PyErr PythonSourceState :=
  .ok { data := none }

/-- C5: `close()` never propagates an exception of either underlying stream's
close, attempts to close both streams when present (each present handle's
close-call count grows by one), and a second `close()` on the result succeeds
as well; the structured-data variant's `close` is equally safe and drops the
data. -/
theorem inputsource_close_never_raises :
    (∀ s : GenericInputSource, ∃ s1 s2,
      InputSource.close s = .ok s1 ∧
      InputSource.close s1 = .ok s2 ∧
      s1.charStream.map Handle.closeCalls =
        s.charStream.map (fun h => h.closeCalls + 1) ∧
      s1.byteStream.map Handle.closeCalls =
        s.byteStream.map (fun h => h.closeCalls + 1)) ∧
    (∀ p : PythonSourceState, ∃ p1 p2,
      PythonInputSource.close p = .ok p1 ∧
      PythonInputSource.close p1 = .ok p2 ∧
      p1.data = none) := by
  refine ⟨fun s => ⟨_, _, rfl, rfl, ?_, ?_⟩, fun p => ⟨_, _, rfl, rfl, rfl⟩⟩
  · cases s.charStream <;> simp [InputSource.close, Handle.doClose]
  · cases s.byteStream <;> simp [InputSource.close, Handle.doClose]

/-- An HTTP response as the urllib layer exposes it to `URLInputSource`:
`geturl()` (the final URL after any redirects the opener followed),
`info().get("content-type")`, and the body stream. -/
structure HTTPResponse where
  finalUrl : PyStr
  contentTypeHeader : Option PyStr
  body : PyBytes
deriving DecidableEq

/-- One outcome of a `urlopen` call: a successful response, or an `HTTPError`
carrying the status code and the `Location` header. -/
inductive NetOutcome where
  | success (r : HTTPResponse)
  | httpFailure (code : Nat) (location : Option PyStr)
deriving DecidableEq

/-- A `urllib.request.Request`: the target URL (`full_url`, mutable and absent
after a 308 without a `Location` header) and the request headers. -/
structure UrlRequest where
  fullUrl : Option PyStr
  headers : List (PyStr × PyStr)
deriving DecidableEq

/-- The `Accept` header chosen by `URLInputSource.__init__` from the requested
format. -/
def acceptHeader (format : Option PyStr) : PyStr :=
  if format = some (str "application/rdf+xml") then
    str "application/rdf+xml, */*;q=0.1"
  else if format = some (str "n3") then
    str "text/n3, */*;q=0.1"
  else if format = some (str "turtle") then
    str "text/turtle,application/x-turtle, */*;q=0.1"
  else if format = some (str "nt") then
    str "text/plain, */*;q=0.1"
  else if format = some (str "json-ld") then
    str "application/ld+json, application/json;q=0.9, */*;q=0.1"
  else
    str "application/rdf+xml,text/rdf+n3;q=0.9,application/xhtml+xml;q=0.5, */*;q=0.1"

/-- The request issued by `URLInputSource.__init__`: the module-level headers
(the fixed user agent) copied and extended with the `Accept` preference. -/
def mkRequest (system_id : PyStr) (format : Option PyStr) : UrlRequest :=
  { fullUrl := some system_id
  , headers := [(str "User-agent", str "rdflib"), (str "Accept", acceptHeader format)] }

/-- The local helper `_urlopen` of `URLInputSource.__init__`, driven by the
successive outcomes the network delivers for the successive attempts: an
`HTTPError` with code 308 causes the request to be re-issued at the response's
`Location` header target, any other `HTTPError` is re-raised unmodified, and a
success returns the response. An exhausted outcome list stands for a network
that never answers and is reported as an `IOError`. -/
def urlopenLoop : List NetOutcome → UrlRequest → Except PyErr HTTPResponse
  | [], _ => .error .ioError
  | o :: rest, req =>
    match o with
    | .success r => .ok r
    | .httpFailure code loc =>
      if code = 308 then urlopenLoop rest { req with fullUrl := loc }
      else .error (.httpError code loc)

/-- The attributes of a constructed `URLInputSource`. -/
structure UrlSource where
  systemId : Option PyStr
  publicId : Option PyStr
  url : PyStr
  contentType : Option PyStr
  byteStream : PyBytes
deriving DecidableEq

/-- Python `content_type.split(";", 1)[0]`. -/
def takeUntilSemi (ct : PyStr) : PyStr :=
  match splitFirst ';' ct with
  | some (a, _) => a
  | none => ct

/-- `URLInputSource.__init__`: the system id is set by the parent constructor
to the requested URL; after the fetch, `geturl()` is stored as `url` and as
the public id, the content type is the response's `Content-Type` header
truncated before the first `;` (absent header stays absent), and the body
becomes the byte stream. -/
def URLInputSource.make (net : List NetOutcome) (system_id : PyStr)
    (format : Option PyStr) : Except PyErr UrlSource :=
  (urlopenLoop net (mkRequest system_id format)).map fun file =>
    { systemId := some system_id
    , url := file.finalUrl
    , publicId := some file.finalUrl
    , contentType := file.contentTypeHeader.map takeUntilSemi
    , byteStream := file.body }

/-- C7: a 308 `HTTPError` is retried by re-issuing the request at the URL of
the response's `Location` header; an `HTTPError` with any other status code
propagates unmodified and consumes no further network attempts. -/
theorem urlopen_308_redirect (net : List NetOutcome) (req : UrlRequest)
    (code : Nat) (loc : Option PyStr) (hcode : code ≠ 308) :
    urlopenLoop (.httpFailure 308 loc :: net) req =
      urlopenLoop net { req with fullUrl := loc } ∧
    urlopenLoop (.httpFailure code loc :: net) req = .error (.httpError code loc) := by
  constructor
  · rw [urlopenLoop]
    simp
  · rw [urlopenLoop]
    simp [hcode]

/-- Witness for `urlopen_308_redirect`: a 404 after a 308 hop. -/
theorem urlopen_308_redirect_witness :
    urlopenLoop [.httpFailure 308 (some (str "http://b/")),
        .success ⟨str "http://b/", none, []⟩] (mkRequest (str "http://a/") none) =
      .ok ⟨str "http://b/", none, []⟩ ∧
    urlopenLoop [.httpFailure 404 none] (mkRequest (str "http://a/") none) =
      .error (.httpError 404 none) := by
  have h := urlopen_308_redirect
    [.success ⟨str "http://b/", none, []⟩] (mkRequest (str "http://a/") none)
    404 (some (str "http://b/")) (by decide)
  have h2 := urlopen_308_redirect ([] : List NetOutcome)
    { fullUrl := some (str "http://b/"),
      headers := (mkRequest (str "http://a/") none).headers }
    404 none (by decide)
  exact ⟨by rw [h.1]; rfl, by
    have h3 := urlopen_308_redirect ([] : List NetOutcome)
      (mkRequest (str "http://a/") none) 404 none (by decide)
    exact h3.2⟩

/-- C6 counterexample: after a 308 redirect the final URL is recorded as the
public identifier (and the `url` attribute), but the system identifier remains
the originally requested URL — the final URL is not recorded as the system
identifier. -/
theorem urlinputsource_systemid_counterexample :
    URLInputSource.make
      [.httpFailure 308 (some (str "http://b/")),
       .success ⟨str "http://b/", some (str "text/turtle; charset=utf-8"), [1, 2]⟩]
      (str "http://a/") none =
      .ok { systemId := some (str "http://a/"), publicId := some (str "http://b/"),
            url := str "http://b/", contentType := some (str "text/turtle"),
            byteStream := [1, 2] } ∧
    some (str "http://a/") ≠ some (str "http://b/") :=
  ⟨by decide, by decide⟩

/-- C6 (amended): for every successfully constructed `URLInputSource`, the
final (post-redirect) URL is recorded as the source's `url` attribute and as
its public identifier, while the system identifier remains the URL the source
was constructed with; the recorded content type is the response's
`Content-Type` header truncated before the first `;`, or absent when the
header is absent. -/
theorem urlinputsource_records (net : List NetOutcome) (system_id : PyStr)
    (format : Option PyStr) (resp : HTTPResponse)
    (h : urlopenLoop net (mkRequest system_id format) = .ok resp) :
    ∃ src, URLInputSource.make net system_id format = .ok src ∧
      src.url = resp.finalUrl ∧
      src.publicId = some resp.finalUrl ∧
      src.systemId = some system_id ∧
      src.byteStream = resp.body ∧
      (resp.contentTypeHeader = none → src.contentType = none) ∧
      (∀ ct, resp.contentTypeHeader = some ct →
        src.contentType = some (takeUntilSemi ct)) := by
  refine ⟨{ systemId := some system_id, url := resp.finalUrl,
            publicId := some resp.finalUrl,
            contentType := resp.contentTypeHeader.map takeUntilSemi,
            byteStream := resp.body }, ?_, rfl, rfl, rfl, rfl, ?_, ?_⟩
  · rw [URLInputSource.make, h]
    rfl
  · intro hnone
    simp [hnone]
  · intro ct hct
    simp [hct]

/-- Witness for `urlinputsource_records` on a one-response network. -/
theorem urlinputsource_records_witness :
    ∃ src, URLInputSource.make
        [.success ⟨str "http://b/", some (str "text/turtle; charset=utf-8"), [7]⟩]
        (str "http://a/") (some (str "turtle")) = .ok src ∧
      src.url = str "http://b/" ∧
      src.publicId = some (str "http://b/") ∧
      src.systemId = some (str "http://a/") ∧
      src.byteStream = [7] ∧
      ((some (str "text/turtle; charset=utf-8") : Option PyStr) = none →
        src.contentType = none) ∧
      (∀ ct, (some (str "text/turtle; charset=utf-8") : Option PyStr) = some ct →
        src.contentType = some (takeUntilSemi ct)) :=
  urlinputsource_records
    [.success ⟨str "http://b/", some (str "text/turtle; charset=utf-8"), [7]⟩]
    (str "http://a/") (some (str "turtle"))
    ⟨str "http://b/", some (str "text/turtle; charset=utf-8"), [7]⟩ (by decide)

/-- An RDF node for the bounded-description model. -/
inductive Node where
  | iri (s : String)
  | blank (s : String)
  | lit (s : String)
deriving DecidableEq

/-- A subject-predicate-object triple. -/
structure Triple where
  subj : Node
  pred : Node
  obj : Node
deriving DecidableEq

/-- The `rdf:subject` property that anchors a reification pattern. -/
def rdfSubject : Node := .iri "rdf:subject"

/-- Decision whether a node is a blank node. -/
def Node.isBlank : Node → Bool
  | .blank _ => true
  | _ => false

/-- Modelled from the spec: the lazy `triples((n, None, None))` capability of
the store layer — the triples of the graph whose subject is `n`. -/
def subjTriples (g : List Triple) (n : Node) : List Triple :=
  g.filter fun t => t.subj == n

/-- Modelled from the spec: the reification nodes of `n` — every node `R` such
that `(R, rdf:subject, n)` holds in the graph. -/
def reifNodes (g : List Triple) (n : Node) : List Node :=
  (g.filter fun t => t.pred == rdfSubject && t.obj == n).map Triple.subj

/-- Insertion into a result graph, collapsing duplicates (a graph is a set). -/
def insertTriple (acc : List Triple) (t : Triple) : List Triple :=
  if t ∈ acc then acc else acc ++ [t]

/-- Set-insertion of a batch of triples, in order. -/
def addTriples (acc : List Triple) (ts : List Triple) : List Triple :=
  ts.foldl insertTriple acc

/-- Modelled from the spec: the work loop of the missing `Graph.cbd` (§4.5).
Each unvisited frontier node contributes its direct triples and the one-level
reification closure of every node `R` with `(R, rdf:subject, n)`; blank-node
objects of the direct triples join the frontier (reification nodes do not);
visited subjects are never re-expanded, so cyclic blank-node chains terminate.
The fuel bounds the number of expansions. -/
def cbdLoop (g : List Triple) : Nat → List Node → List Node → List Triple → List Triple
  | 0, _, _, acc => acc
  | _ + 1, [], _, acc => acc
  | fuel + 1, n :: rest, visited, acc =>
    if n ∈ visited then cbdLoop g fuel rest visited acc
    else
      let direct := subjTriples g n
      let reif := (reifNodes g n).flatMap fun r => subjTriples g r
      let acc2 := addTriples (addTriples acc direct) reif
      let fresh := (direct.map Triple.obj).filter fun o =>
        o.isBlank && !visited.contains o && !(n :: rest).contains o
      cbdLoop g fuel (rest ++ fresh) (n :: visited) acc2

/-- Modelled from the spec: the missing `Graph.cbd(startNode)` — the Concise
Bounded Description of `startNode` as a fresh result graph. The fuel
`g.length + 1` covers every possible expansion, because each expanded node
beyond the start is the blank object of some triple of the graph and no node
is expanded twice. -/
def cbd (g : List Triple) (startNode : Node) : List Triple :=
  cbdLoop g (g.length + 1) [startNode] [] []

/-- The example graph of the claim with `R2` a blank node. -/
def gBlankR2 : List Triple :=
  [⟨.iri "R1", .iri "hasChild", .blank "R2"⟩,
   ⟨.iri "R1", .iri "hasChild", .iri "R3"⟩,
   ⟨.blank "R2", .iri "propOne", .iri "P1"⟩,
   ⟨.blank "R2", .iri "propTwo", .iri "P2"⟩]

/-- The example graph of the claim with `R2` an IRI node. -/
def gIriR2 : List Triple :=
  [⟨.iri "R1", .iri "hasChild", .iri "R2"⟩,
   ⟨.iri "R1", .iri "hasChild", .iri "R3"⟩,
   ⟨.iri "R2", .iri "propOne", .iri "P1"⟩,
   ⟨.iri "R2", .iri "propTwo", .iri "P2"⟩]

/-- C8 (spec-modelled): on the claim's four-triple graph, `cbd(R1)` yields the
two `hasChild` triples plus, exactly when `R2` is a blank node, `R2`'s two
outgoing triples — four triples for a blank `R2`, two for an IRI `R2` — and a
start node with no outgoing triples yields the empty graph. -/
theorem cbd_simple_tree :
    cbd gBlankR2 (.iri "R1") = gBlankR2 ∧
    (cbd gBlankR2 (.iri "R1")).length = 4 ∧
    cbd gIriR2 (.iri "R1") =
      [⟨.iri "R1", .iri "hasChild", .iri "R2"⟩,
       ⟨.iri "R1", .iri "hasChild", .iri "R3"⟩] ∧
    (cbd gIriR2 (.iri "R1")).length = 2 ∧
    cbd gBlankR2 (.iri "R4") = [] := by
  refine ⟨by decide, by decide, by decide, by decide, by decide⟩

/-- Modelled from the spec: a parsed Link-header entry (§4.2) — the bracketed
target IRI, the `rel` value (defaulting to the empty string), the optional
`type`, and the remaining parameters. -/
structure LinkEntry where
  target : PyStr
  rel : PyStr
  typ : Option PyStr
  params : List (PyStr × PyStr)
deriving DecidableEq

/-- Modelled from the spec: split a Link header on the commas that are not
inside angle brackets or quotes; the two boolean flags track whether the scan
is inside `<...>` and inside `"..."`. -/
def splitLinkEntries : PyStr → Bool → Bool → PyStr → List PyStr
  | [], _, _, cur => [cur.reverse]
  | c :: rest, inA, inQ, cur =>
    if c = ',' ∧ ¬inA ∧ ¬inQ then cur.reverse :: splitLinkEntries rest false false []
    else
      let inA2 := if c = '<' then true else if c = '>' then false else inA
      let inQ2 := if c = '"' then !inQ else inQ
      splitLinkEntries rest inA2 inQ2 (c :: cur)

/-- Removal of surrounding spaces. -/
def stripSpaces (s : PyStr) : PyStr :=
  ((s.dropWhile fun c => c == ' ').reverse.dropWhile fun c => c == ' ').reverse

/-- Modelled from the spec: parse one `key=value` parameter; a quoted value
has the quotes stripped, a bare value stands as is, and a piece with no `=` is
no parameter. -/
def parseParam (s : PyStr) : Option (PyStr × PyStr) :=
  match splitFirst '=' s with
  | none => none
  | some (k, v) =>
    let v := stripSpaces v
    let v :=
      match v with
      | '"' :: rest => if rest.getLast? = some '"' then rest.dropLast else v
      | _ => v
    some (stripSpaces k, v)

/-- Ordered lookup in an association list keyed by strings. -/
def lookupParam (k : PyStr) : List (PyStr × PyStr) → Option PyStr
  | [] => none
  | (k2, v) :: rest => if k2 = k then some v else lookupParam k rest

/-- Modelled from the spec: parse one comma-separated Link entry — the
bracketed target IRI followed by `;`-separated parameters, with missing `rel`
defaulting to the empty string; an entry with no bracketed target is silently
skipped (`none`). -/
def parseLinkEntry (s : PyStr) : Option LinkEntry :=
  match splitFirst '<' s with
  | none => none
  | some (_, afterOpen) =>
    match splitFirst '>' afterOpen with
    | none => none
    | some (target, afterClose) =>
      let params := (afterClose.splitOn ';').filterMap parseParam
      some { target := target
           , rel := (lookupParam (str "rel") params).getD []
           , typ := lookupParam (str "type") params
           , params := params }

/-- Modelled from the spec: the well-formed entries of a Link header, in
order. -/
def linkEntries (h : PyStr) : List LinkEntry :=
  (splitLinkEntries h false false []).filterMap parseLinkEntry

/-- Modelled from the spec: accumulate an entry into the rel-indexed mapping,
always appending to the existing list for its `rel` and never overwriting. -/
def addToRel (m : List (PyStr × List LinkEntry)) (e : LinkEntry) :
    List (PyStr × List LinkEntry) :=
  match m with
  | [] => [(e.rel, [e])]
  | (r, es) :: rest =>
    if r = e.rel then (r, es ++ [e]) :: rest else (r, es) :: addToRel rest e

/-- Modelled from the spec: parse a Link header into a mapping from `rel`
value to the ordered list of entries carrying that `rel`. -/
def parseLinkHeader (h : PyStr) : List (PyStr × List LinkEntry) :=
  (linkEntries h).foldl addToRel []

/-- Lookup of a `rel` value in the produced mapping. -/
def lookupRel (r : PyStr) : List (PyStr × List LinkEntry) → Option (List LinkEntry)
  | [] => none
  | (r2, es) :: rest => if r2 = r then some es else lookupRel r rest

lemma lookupRel_addToRel (m : List (PyStr × List LinkEntry)) (e : LinkEntry) (r : PyStr) :
    lookupRel r (addToRel m e) =
      if e.rel = r then some (((lookupRel r m).getD []) ++ [e]) else lookupRel r m := by
  induction m with
  | nil =>
    by_cases he : e.rel = r
    · simp [addToRel, lookupRel, he]
    · simp [addToRel, lookupRel, he]
  | cons p rest ih =>
    obtain ⟨r2, es⟩ := p
    by_cases h2 : r2 = e.rel
    · subst h2
      by_cases he : e.rel = r
      · subst he
        simp [addToRel, lookupRel]
      · simp [addToRel, lookupRel, he]
    · by_cases he : r2 = r
      · subst he
        have hne : ¬ e.rel = r2 := fun hh => h2 hh.symm
        simp [addToRel, lookupRel, h2, hne]
      · simp [addToRel, lookupRel, h2, he, ih]

lemma lookupRel_fold (es : List LinkEntry) (m : List (PyStr × List LinkEntry)) (r : PyStr) :
    lookupRel r (es.foldl addToRel m) =
      if (es.filter fun e => e.rel == r).isEmpty then lookupRel r m
      else some (((lookupRel r m).getD []) ++ (es.filter fun e => e.rel == r)) := by
  induction es generalizing m with
  | nil => simp
  | cons e rest ih =>
    rw [List.foldl_cons, ih (addToRel m e), lookupRel_addToRel]
    by_cases he : e.rel = r
    · have hbeq : (e.rel == r) = true := by simp [he]
      by_cases hrest : (rest.filter fun x => x.rel == r).isEmpty = true
      · have hre : (rest.filter fun x => x.rel == r) = [] := List.isEmpty_iff.mp hrest
        simp [List.filter_cons, hbeq, he, hrest, hre]
      · simp only [List.filter_cons, hbeq, if_pos rfl, List.isEmpty_cons, hrest, if_neg,
          Bool.false_eq_true, not_false_eq_true, if_pos he]
        simp [hrest, List.append_assoc]
    · have hbeq : (e.rel == r) = false := by simp [he]
      simp [List.filter_cons, hbeq, he]

/-- The Link header of the claim's example. -/
def exampleLinkHeader : PyStr :=
  str "<http://a/ctx.jsonld>; rel=\"http://www.w3.org/ns/json-ld#context\"; type=\"application/ld+json\""

/-- C9 (spec-modelled): parsing the example header yields a mapping with the
single key `http://www.w3.org/ns/json-ld#context` whose value is the
one-element list of the entry with target `http://a/ctx.jsonld` and type
`application/ld+json`; and for every header the value at each `rel` key is the
list of all entries with that `rel`, accumulated in order and never
overwritten (absent exactly when no entry has that `rel`). -/
theorem link_header_parsing :
    parseLinkHeader exampleLinkHeader =
      [(str "http://www.w3.org/ns/json-ld#context",
        [{ target := str "http://a/ctx.jsonld"
         , rel := str "http://www.w3.org/ns/json-ld#context"
         , typ := some (str "application/ld+json")
         , params := [(str "rel", str "http://www.w3.org/ns/json-ld#context"),
                      (str "type", str "application/ld+json")] }])] ∧
    (∀ h r, lookupRel r (parseLinkHeader h) =
      if ((linkEntries h).filter fun e => e.rel == r).isEmpty then none
      else some ((linkEntries h).filter fun e => e.rel == r)) := by
  constructor
  · decide
  · intro h r
    rw [parseLinkHeader, lookupRel_fold]
    simp [lookupRel]

/-- A file-like object: its `name` attribute and whether it is a text-mode
handle. -/
structure FileLike where
  name : PyStr
  isText : Bool
deriving DecidableEq

/-- The `source` argument of `create_input_source`, restricted to the
supported types its dispatch recognizes. -/
inductive SourceArg where
  /-- an already-built `InputSource` (passed through), with its public id and
  `auto_close` flag -/
  | inputSrc (publicId : Option PyStr) (autoClose : Bool)
  /-- a plain string, treated as a location -/
  | pyStr (s : PyStr)
  /-- a `pathlib.PurePath`, stringified into a location -/
  | purePath (p : PyStr)
  /-- raw bytes, treated as data -/
  | pyBytes (b : PyBytes)
  /-- an object exposing `read`; `name` is its `name` attribute when it has
  one, `isStdin` whether it is the process's standard input -/
  | readable (hasEncoding : Bool) (name : Option PyStr) (isStdin : Bool)
deriving DecidableEq

/-- The `data` argument, restricted to the supported types. -/
inductive DataArg where
  | dict
  | dstr (s : PyStr)
  | dbytes (b : PyBytes)
  | dbytearray (b : PyBytes)
deriving DecidableEq

/-- The variant of the produced `InputSource`. -/
inductive SourceVariant where
  | given
  | generic
  | string
  | python
  | file
  | url
deriving DecidableEq

/-- The attributes of the produced `InputSource` that the resolver handles. -/
structure ResolvedSource where
  variant : SourceVariant
  publicId : Option PyStr
  systemId : Option PyStr
  autoClose : Bool
deriving DecidableEq

/-- The external world of `create_input_source`, kept abstract and — for the
I/O operations — total: resources exist and the network answers.
`pathExists` models `os.path.exists`, `pathToUri` the `Path(...).absolute().as_uri()`
conversion, `resolveUri` the `URIRef(value, base)` absolutization against the
working-directory base IRI `cwdBase`, `urlToPath` the `url2pathname`
conversion, and `response` the network's successful answer for a URL. -/
structure Env where
  O : UnicodeOracle
  pathExists : PyStr → Bool
  pathToUri : PyStr → PyStr
  cwdBase : PyStr
  resolveUri : PyStr → PyStr → PyStr
  urlToPath : PyStr → PyStr
  response : PyStr → HTTPResponse

/-- `FileInputSource.__init__`: the system id is the file's path as a
`file://` IRI resolved against the working directory base. -/
def FileInputSource (env : Env) (f : FileLike) : ResolvedSource :=
  { variant := .file, publicId := none,
    systemId := some (env.resolveUri (env.pathToUri f.name) env.cwdBase),
    autoClose := false }

/-- The location normalization inside `_create_input_source_from_location`:
an existing filesystem path is absolutized to a `file://` IRI, and the
location then runs through `_iri2uri` (which can raise). -/
def normalizeLocation (env : Env) (location : PyStr) : Except PyErr PyStr :=
  iri2uri env.O (if env.pathExists location then env.pathToUri location else location)

/-- The argument-count test of `create_input_source` (the length of the
filtered non-None argument list). -/
def nonNoneCount (source : Option SourceArg) (location : Option PyStr)
    (file : Option FileLike) (data : Option DataArg) : Nat :=
  ([source.isSome, location.isSome, file.isSome, data.isSome].filter fun b => b).length

/-- The message of the exactly-one `ValueError`. -/
def exactlyOneMsg : PyStr := str "exactly one of source, location, file or data must be given"

/-- Stage 1 of `create_input_source`: dispatch on the `source` argument —
pass an `InputSource` through, turn a string or path into the location, bytes
into data, and wrap a readable into a generic input source whose system id is
`file:///dev/stdin` for standard input or the object's `name` attribute. (In
the readable case the code's `file.buffer` access raises `AttributeError` on
the absent `file` argument and is swallowed, so the source object itself
serves as byte stream either way.) -/
def dispatchSource (source : Option SourceArg) (location0 : Option PyStr)
    (data0 : Option DataArg) :
    Option ResolvedSource × Option PyStr × Option DataArg :=
  match source with
  | none => (none, location0, data0)
  | some (.inputSrc pid ac) => (some ⟨.given, pid, none, ac⟩, location0, data0)
  | some (.pyStr s) => (none, some s, data0)
  | some (.purePath p) => (none, some p, data0)
  | some (.pyBytes b) => (none, location0, some (.dbytes b))
  | some (.readable _hasEnc name isStdin) =>
    (some ⟨.generic, none,
      if isStdin then some (str "file:///dev/stdin") else name, false⟩,
     location0, data0)

/-- Stage 2, `_create_input_source_from_location`: the normalized location is
resolved against the working directory; a `file:///` IRI is opened as a local
binary file handle, anything else is fetched as a `URLInputSource`; both
branches report `auto_close = True`. The result is
`(absolute_location, auto_close, file, input_source)`. -/
def resolveLocation (env : Env) (format : Option PyStr) (location : Option PyStr)
    (file : Option FileLike) (input_source : Option ResolvedSource) :
    Except PyErr (Option PyStr × Bool × Option FileLike × Option ResolvedSource) :=
  match location with
  | none => .ok (none, false, file, input_source)
  | some loc =>
    (normalizeLocation env loc).bind fun loc2 =>
      let absLoc := env.resolveUri loc2 env.cwdBase
      if (str "file:///").isPrefixOf absLoc then
        .ok (some absLoc, true, some ⟨env.urlToPath absLoc, false⟩, input_source)
      else
        (URLInputSource.make [.success (env.response absLoc)] absLoc format).map fun us =>
          (some absLoc, true, file, some ⟨.url, us.publicId, us.systemId, false⟩)

/-- Stage 3: an open file handle becomes a `FileInputSource`. -/
def applyFile (env : Env) (file : Option FileLike)
    (input_source : Option ResolvedSource) : Option ResolvedSource :=
  match file with
  | some f => some (FileInputSource env f)
  | none => input_source

/-- Stage 4: the data argument becomes a structured-data source (for a
mapping) or a string source (for str/bytes/bytearray) and sets `auto_close`. -/
def applyData (data : Option DataArg) (input_source : Option ResolvedSource)
    (autoClose : Bool) : Option ResolvedSource × Bool :=
  match data with
  | none => (input_source, autoClose)
  | some .dict => (some ⟨.python, none, none, false⟩, true)
  | some (.dstr _) => (some ⟨.string, none, none, false⟩, true)
  | some (.dbytes _) => (some ⟨.string, none, none, false⟩, true)
  | some (.dbytearray _) => (some ⟨.string, none, none, false⟩, true)

/-- Stage 5: the final steps of `create_input_source` — a missing input
source raises a bare `Exception`, `auto_close` is or-merged into the source,
and the public id becomes the explicit `publicID` when given, otherwise the
absolute location (or the empty string) when the source has none. -/
def finishSource (input_source : Option ResolvedSource) (autoClose : Bool)
    (publicID : Option PyStr) (absoluteLocation : Option PyStr) :
    Except PyErr ResolvedSource :=
  match input_source with
  | none => .error (.exception (str "could not create InputSource"))
  | some isrc =>
    match publicID with
    | some pid =>
      .ok ⟨isrc.variant, some pid, isrc.systemId, isrc.autoClose || autoClose⟩
    | none =>
      if isrc.publicId = none then
        .ok ⟨isrc.variant, some (absoluteLocation.getD []), isrc.systemId,
          isrc.autoClose || autoClose⟩
      else .ok ⟨isrc.variant, isrc.publicId, isrc.systemId, isrc.autoClose || autoClose⟩

/-- The resolver `create_input_source` of `rdflib/parser.py`: the exactly-one
validation over {source, location, file, data}, then the source dispatch, the
location resolution, the file wrapping, the data wrapping, and the public-id
merge. -/
def create_input_source (env : Env) (source : Option SourceArg)
    (publicID : Option PyStr) (location0 : Option PyStr) (file0 : Option FileLike)
    (data0 : Option DataArg) (format : Option PyStr) : Except PyErr ResolvedSource :=
  if nonNoneCount source location0 file0 data0 ≠ 1 then
    .error (.valueError exactlyOneMsg)
  else
    (resolveLocation env format (dispatchSource source location0 data0).2.1 file0
      (dispatchSource source location0 data0).1).bind fun r =>
      finishSource
        (applyData (dispatchSource source location0 data0).2.2
          (applyFile env r.2.2.1 r.2.2.2) r.2.1).1
        (applyData (dispatchSource source location0 data0).2.2
          (applyFile env r.2.2.1 r.2.2.2) r.2.1).2
        publicID r.1

/-- The location the dispatch hands to the resolution stage: the source
argument itself when it is a string or a path, the `location` argument
otherwise. -/
def effectiveLocation (source : Option SourceArg) (location0 : Option PyStr) :
    Option PyStr :=
  match source with
  | some (.pyStr s) => some s
  | some (.purePath p) => some p
  | _ => location0

lemma dispatchSource_loc (source : Option SourceArg) (l : Option PyStr)
    (d : Option DataArg) :
    (dispatchSource source l d).2.1 = effectiveLocation source l := by
  rcases source with _ | s
  · rfl
  · cases s <;> rfl

lemma finishSource_ok (isrc : ResolvedSource) (ac : Bool) (pid al : Option PyStr) :
    ∃ s, finishSource (some isrc) ac pid al = .ok s := by
  rcases pid with _ | p
  · by_cases hp : isrc.publicId = none
    · exact ⟨⟨isrc.variant, some (al.getD []), isrc.systemId, isrc.autoClose || ac⟩,
        by simp [finishSource, hp]⟩
    · exact ⟨⟨isrc.variant, isrc.publicId, isrc.systemId, isrc.autoClose || ac⟩,
        by simp [finishSource, hp]⟩
  · exact ⟨⟨isrc.variant, some p, isrc.systemId, isrc.autoClose || ac⟩,
      by simp [finishSource]⟩

lemma urlMake_single_ok (env : Env) (absLoc : PyStr) (format : Option PyStr) :
    URLInputSource.make [.success (env.response absLoc)] absLoc format =
      .ok { systemId := some absLoc, url := (env.response absLoc).finalUrl,
            publicId := some (env.response absLoc).finalUrl,
            contentType := (env.response absLoc).contentTypeHeader.map takeUntilSemi,
            byteStream := (env.response absLoc).body } := rfl

lemma resolveLocation_some_ok (env : Env) (format : Option PyStr) (loc u : PyStr)
    (file : Option FileLike) (input_source : Option ResolvedSource)
    (hnorm : normalizeLocation env loc = .ok u) :
    ∃ al ac f2 i2, resolveLocation env format (some loc) file input_source =
      .ok (al, ac, f2, i2) ∧ (f2.isSome = true ∨ i2.isSome = true) := by
  simp only [resolveLocation]
  rw [hnorm]
  simp only [Except.bind]
  by_cases hpre : (str "file:///").isPrefixOf (env.resolveUri u env.cwdBase) = true
  · rw [if_pos hpre]
    exact ⟨_, _, _, _, rfl, Or.inl rfl⟩
  · rw [if_neg hpre, urlMake_single_ok]
    exact ⟨_, _, _, _, rfl, Or.inr rfl⟩

lemma resolveLocation_some_error (env : Env) (format : Option PyStr) (loc : PyStr)
    (file : Option FileLike) (input_source : Option ResolvedSource) (e : PyErr)
    (hnorm : normalizeLocation env loc = .error e) :
    resolveLocation env format (some loc) file input_source = .error e := by
  simp only [resolveLocation]
  rw [hnorm]
  rfl

lemma applyFile_some (env : Env) (file : Option FileLike)
    (i : Option ResolvedSource) (h : file.isSome = true ∨ i.isSome = true) :
    (applyFile env file i).isSome = true := by
  rcases file with _ | f
  · rcases i with _ | x
    · simp at h
    · rfl
  · rfl

lemma applyData_keeps_some (data : Option DataArg) (i : Option ResolvedSource)
    (ac : Bool) (h : i.isSome = true) : ((applyData data i ac).1).isSome = true := by
  rcases data with _ | d
  · exact h
  · cases d <;> rfl

/-- C1 (amended): resolving with zero or two-or-more of
{source, location, file, data} non-None fails with the ArgumentError
`ValueError` and no InputSource is produced. With exactly one non-None
argument of a supported type, the call returns an InputSource whenever the
effective location (when the argument supplies one) survives IRI
normalization; a location whose normalization fails propagates exactly that
error (an EncodingError, never the ArgumentError). -/
theorem create_input_source_exactly_one (env : Env) (source : Option SourceArg)
    (publicID : Option PyStr) (location0 : Option PyStr) (file0 : Option FileLike)
    (data0 : Option DataArg) (format : Option PyStr) :
    (nonNoneCount source location0 file0 data0 ≠ 1 →
      create_input_source env source publicID location0 file0 data0 format =
        .error (.valueError exactlyOneMsg)) ∧
    (nonNoneCount source location0 file0 data0 = 1 →
      (effectiveLocation source location0 = none →
        ∃ s, create_input_source env source publicID location0 file0 data0 format =
          .ok s) ∧
      (∀ loc u, effectiveLocation source location0 = some loc →
        normalizeLocation env loc = .ok u →
        ∃ s, create_input_source env source publicID location0 file0 data0 format =
          .ok s) ∧
      (∀ loc e, effectiveLocation source location0 = some loc →
        normalizeLocation env loc = .error e →
        create_input_source env source publicID location0 file0 data0 format =
          .error e)) := by
  constructor
  · intro h
    rw [create_input_source, if_pos h]
  · intro h
    have hif : ¬ nonNoneCount source location0 file0 data0 ≠ 1 := fun hh => hh h
    refine ⟨?_, ?_, ?_⟩
    · intro heff
      rw [create_input_source, if_neg hif]
      rcases source with _ | s
      · simp only [effectiveLocation] at heff
        subst heff
        rcases file0 with _ | f
        · rcases data0 with _ | d
          · simp [nonNoneCount] at h
          · simp only [dispatchSource, resolveLocation, Except.bind, applyFile]
            cases d <;> exact finishSource_ok _ _ _ _
        · simp only [dispatchSource, resolveLocation, Except.bind, applyFile]
          rcases data0 with _ | d
          · exact finishSource_ok _ _ _ _
          · cases d <;> exact finishSource_ok _ _ _ _
      · cases s with
        | inputSrc pid ac =>
          simp only [effectiveLocation] at heff
          subst heff
          simp only [dispatchSource, resolveLocation, Except.bind, applyFile]
          rcases file0 with _ | f
          · rcases data0 with _ | d
            · exact finishSource_ok _ _ _ _
            · cases d <;> exact finishSource_ok _ _ _ _
          · rcases data0 with _ | d
            · exact finishSource_ok _ _ _ _
            · cases d <;> exact finishSource_ok _ _ _ _
        | pyStr s => simp [effectiveLocation] at heff
        | purePath p => simp [effectiveLocation] at heff
        | pyBytes b =>
          simp only [effectiveLocation] at heff
          subst heff
          simp only [dispatchSource, resolveLocation, Except.bind, applyFile, applyData]
          rcases file0 with _ | f <;> exact finishSource_ok _ _ _ _
        | readable he name isStdin =>
          simp only [effectiveLocation] at heff
          subst heff
          simp only [dispatchSource, resolveLocation, Except.bind, applyFile]
          rcases file0 with _ | f
          · rcases data0 with _ | d
            · exact finishSource_ok _ _ _ _
            · cases d <;> exact finishSource_ok _ _ _ _
          · rcases data0 with _ | d
            · exact finishSource_ok _ _ _ _
            · cases d <;> exact finishSource_ok _ _ _ _
    · intro loc u heff hnorm
      rw [create_input_source, if_neg hif]
      have hd : (dispatchSource source location0 data0).2.1 = some loc := by
        rw [dispatchSource_loc, heff]
      obtain ⟨al, ac, f2, i2, hres, hsome⟩ :=
        resolveLocation_some_ok env format loc u file0
          (dispatchSource source location0 data0).1 hnorm
      rw [hd, hres]
      simp only [Except.bind]
      have h3 := applyFile_some env f2 i2 hsome
      have h4 := applyData_keeps_some (dispatchSource source location0 data0).2.2
        (applyFile env f2 i2) ac h3
      obtain ⟨x, hx⟩ := Option.isSome_iff_exists.mp h4
      rw [hx]
      exact finishSource_ok x _ publicID al
    · intro loc e heff hnorm
      rw [create_input_source, if_neg hif]
      have hd : (dispatchSource source location0 data0).2.1 = some loc := by
        rw [dispatchSource_loc, heff]
      rw [hd, resolveLocation_some_error env format loc file0
        (dispatchSource source location0 data0).1 e hnorm]
      rfl

/-- A concrete environment for evaluations: no local path exists, path/URI
conversions are identities, and every URL yields an empty response. -/
def env0 : Env :=
  { O := asciiOracle
  , pathExists := fun _ => false
  , pathToUri := fun p => p
  , cwdBase := []
  , resolveUri := fun l _ => l
  , urlToPath := fun p => p
  , response := fun _ => ⟨[], none, []⟩ }

/-- C1 counterexample: with exactly one argument set — the location string
`http://a..b/x`, a supported type — the call neither returns an InputSource
nor raises the ArgumentError: IDNA encoding rejects the empty host label
inside `_iri2uri` and the `UnicodeError` propagates. -/
theorem create_input_source_unicode_counterexample :
    nonNoneCount none (some (str "http://a..b/x")) none none = 1 ∧
    create_input_source env0 none none (some (str "http://a..b/x")) none none none =
      .error .unicodeError :=
  ⟨by decide, by decide⟩

/-- Witness for `create_input_source_exactly_one`: zero arguments raise the
ArgumentError, and a lone `data` dict produces an InputSource. -/
theorem create_input_source_exactly_one_witness :
    create_input_source env0 none none none none none none =
      .error (.valueError exactlyOneMsg) ∧
    (∃ s, create_input_source env0 none none none none (some .dict) none = .ok s) :=
  ⟨(create_input_source_exactly_one env0 none none none none none none).1 (by decide),
   ((create_input_source_exactly_one env0 none none none none (some .dict) none).2
     (by decide)).1 (by decide)⟩
